import Mathlib

/-!
Shallow embedding of the sharded asynchronous data cache implemented in
`velox/common/caching/AsyncDataCache.cpp`, together with theorems checking
the natural-language specification against it.

Machine integers are modelled as `Nat`/`Int`; the C++ quantities involved
never approach the 32/64-bit boundaries on the inputs considered here.
Mutexes, wall-clock time and thread scheduling are not modelled: every
public operation is embedded as a pure function on an explicit state, and
"after the operation releases the shard mutex" is read as the state at the
operation's completion.
-/

namespace Velox

/-- `AllocationTraits::kPageSize` (4 KB machine pages). -/
def kPageSize : Nat := 4096

/-- `AllocationTraits::numPages(bytes)`: pages needed to cover `bytes`
(rounding up). -/
def numPagesOf (bytes : Nat) : Nat := (bytes + kPageSize - 1) / kPageSize

/-- `AsyncDataCacheEntry::kExclusive`: the pin-count sentinel meaning one
writer and no readers.  The header defining the exact value is not part of
the sources; any negative sentinel is faithful, the code only compares
against it. -/
def kExclusive : Int := -10000

/-- `AsyncDataCacheEntry::kTinyDataSize`: the inline-buffer cutoff.  The
header is not in the sources; the spec gives 2 KiB. -/
def kTinyDataSize : Nat := 2048

/-- A `RawFileCacheKey`: interned file id and offset. -/
structure RawKey where
  fileNum : Nat
  offset : Nat
deriving DecidableEq, Repr

/-- The state of one `AsyncDataCacheEntry` that the embedded operations
read or write.  `key = none` models `key_.fileNum` being cleared
(`!hasValue()`); `promise` records whether a waiter promise object is
present; `dataPages`/`dataBytes` model `data_.numPages()` and
`data_.byteSize()` of the non-contiguous allocation; `tinySize` models
`tinyData_.size()`. -/
structure Entry where
  key : Option RawKey
  size : Nat
  numPins : Int
  promise : Bool
  ssdSaveable : Bool
  hasSsdFile : Bool
  isPrefetch : Bool
  isFirstUse : Bool
  tinySize : Nat
  dataPages : Nat
  dataBytes : Nat
  lastUse : Nat
  numUses : Nat
deriving DecidableEq, Repr

/-- `AsyncDataCacheEntry::isExclusive()`. -/
def Entry.isExclusive (e : Entry) : Bool := e.numPins = kExclusive

/-- `AsyncDataCacheEntry::isShared()`. -/
def Entry.isShared (e : Entry) : Bool := 0 < e.numPins

/-- `AccessStats::touch()` (header helper): record a use at time `now`. -/
def Entry.touch (e : Entry) (now : Nat) : Entry :=
  { e with lastUse := now, numUses := e.numUses + 1 }

/-- A blank entry as constructed by `AsyncDataCacheEntry(CacheShard*)`. -/
def Entry.blank : Entry :=
  { key := none, size := 0, numPins := 0, promise := false,
    ssdSaveable := false, hasSsdFile := false, isPrefetch := false,
    isFirstUse := false, tinySize := 0, dataPages := 0, dataBytes := 0,
    lastUse := 0, numUses := 0 }

/-! ### `AsyncDataCache::canTryAllocate` (claim C8)

```cpp
bool AsyncDataCache::canTryAllocate(numPages, acquired) const {
  if (numPages <= acquired.numPages()) return true;
  return numPages - acquired.numPages() <=
      (memory::AllocationTraits::numPages(allocator_->capacity())) -
      allocator_->numAllocated();
}
```
`capacityPages` stands for `numPages(allocator_->capacity())` and
`numAllocated` for `allocator_->numAllocated()`; the allocator lives
outside the sources, so its two accessors are inputs here. -/

def canTryAllocate (numPages acquiredPages capacityPages numAllocated : Int) :
    Bool :=
  if numPages ≤ acquiredPages then true
  else numPages - acquiredPages ≤ capacityPages - numAllocated

/-! ### `AsyncDataCacheEntry::initialize` buffer choice (claim C9)

```cpp
if (size_ < AsyncDataCacheEntry::kTinyDataSize) {
  tinyData_.resize(size_); ...
} else {
  tinyData_.clear(); ...
  const auto sizePages = memory::AllocationTraits::numPages(size_);
  if (cache->allocator()->allocateNonContiguous(sizePages, data_)) ...
}
```
The embedding records which storage is used and how many pages are
requested from the allocator. -/

structure BufferChoice where
  usesTiny : Bool
  tinySize : Nat
  requestedPages : Nat
deriving DecidableEq, Repr

def initializeBuffer (size : Nat) : BufferChoice :=
  if size < kTinyDataSize then
    { usesTiny := true, tinySize := size, requestedPages := 0 }
  else
    { usesTiny := false, tinySize := 0, requestedPages := numPagesOf size }

/-! ### `CacheShard::appendSsdSaveable` (claim C1)

```cpp
void CacheShard::appendSsdSaveable(std::vector<CachePin>& pins) {
  std::lock_guard<std::mutex> l(mutex_);
  // Do not add more than 70% of entries to a write batch. ...
  const int32_t limit = (entries_.size() * 100) / 70;
  VELOX_CHECK(cache_->ssdCache()->writeInProgress());
  for (auto& entry : entries_) {
    if (entry && !entry->ssdFile_ && !entry->isExclusive() &&
        entry->ssdSaveable_) {
      CachePin pin;
      ++entry->numPins_;
      pin.setEntry(entry.get());
      pins.push_back(std::move(pin));
      if (pins.size() >= limit) { ... break; }
    }
  }
}
```
The slot vector `entries_` is a list of optional entries (`none` is an
empty `unique_ptr` slot).  A pin is recorded as the pinned entry's value
at pin time; `pins` carries over whatever pins earlier shards already
appended, exactly as in `AsyncDataCache::saveToSsd`. -/

/-- Whether the loop body pins this slot. -/
def ssdSaveEligible : Option Entry → Bool
  | none => false
  | some e => !e.hasSsdFile && !e.isExclusive && e.ssdSaveable

/-- The loop of `appendSsdSaveable`: walk the slots, pinning eligible
entries (`++entry->numPins_` through the slot's pointer), stopping once
`pins.size() >= limit`.  Returns the slots after the walk and the grown
pin vector. -/
def appendSsdSaveableLoop (limit : Nat) :
    List (Option Entry) → List Entry → List (Option Entry) × List Entry
  | [], pins => ([], pins)
  | slot :: rest, pins =>
    match slot with
    | some e =>
      if ssdSaveEligible (some e) then
        let e2 : Entry := { e with numPins := e.numPins + 1 }
        let pins2 := pins ++ [e2]
        if pins2.length ≥ limit then (some e2 :: rest, pins2)
        else
          let (rest2, pins3) := appendSsdSaveableLoop limit rest pins2
          (some e2 :: rest2, pins3)
      else
        let (rest2, pins3) := appendSsdSaveableLoop limit rest pins
        (some e :: rest2, pins3)
    | none =>
      let (rest2, pins3) := appendSsdSaveableLoop limit rest pins
      (none :: rest2, pins3)

/-- `CacheShard::appendSsdSaveable`: the slots after the call and the pin
vector after the call (`pins` carries over pins appended by earlier shards,
exactly as in `AsyncDataCache::saveToSsd`). -/
def appendSsdSaveable (entries : List (Option Entry)) (pins : List Entry) :
    List (Option Entry) × List Entry :=
  let limit := (entries.length * 100) / 70
  appendSsdSaveableLoop limit entries pins


/-- A shared, saveable, not-on-SSD entry used as a concrete test slot. -/
def saveableEntry : Entry :=
  { Entry.blank with
      key := some ⟨1, 0⟩
      size := 100
      numPins := 0
      ssdSaveable := true }

/-! ### The shard state

`CacheShard` owns `entries_` (a vector of `unique_ptr<AsyncDataCacheEntry>`,
modelled as a list of optional entries, `none` being an empty slot),
`entryMap_` (an `unordered_map<RawFileCacheKey, AsyncDataCacheEntry*>`,
modelled as an association list from key to slot index — unique keys, as in
the C++ map), `emptySlots_` and `freeEntries_` (vectors used as stacks via
`push_back`/`back`/`pop_back`), the CLOCK hand, the calibrated eviction
threshold and the event counters.  Statistics counters live in a nested
record so that the invariants can ignore them wholesale. -/

structure ShardStats where
  numHit : Nat
  hitBytes : Nat
  numNew : Nat
  numEvict : Nat
  numEvictChecks : Nat
  numWaitExclusive : Nat
  sumEvictScore : Int
deriving DecidableEq, Repr

def ShardStats.zero : ShardStats :=
  { numHit := 0, hitBytes := 0, numNew := 0, numEvict := 0,
    numEvictChecks := 0, numWaitExclusive := 0, sumEvictScore := 0 }

/-- `CacheShard::kNoThreshold` (header constant marking an uncalibrated
eviction threshold; its exact value is immaterial to the claims). -/
def kNoThreshold : Int := 0

/-- `CacheShard::kMaxFreeEntries` (header constant capping the free-entry
recycler; the exact value is immaterial to the claims). -/
def kMaxFreeEntries : Nat := 32

structure Shard where
  entries : List (Option Entry)
  entryMap : List (RawKey × Nat)
  emptySlots : List Nat
  freeEntries : List Entry
  clockHand : Nat
  eventCounter : Nat
  evictionThreshold : Int
  stats : ShardStats
deriving DecidableEq, Repr

/-- Lookup in the association-list model of `entryMap_`. -/
def mapLookup (m : List (RawKey × Nat)) (k : RawKey) : Option Nat :=
  match m with
  | [] => none
  | p :: rest => if p.1 = k then some p.2 else mapLookup rest k

/-- `entryMap_.erase(entryMap_.find(k))`.  The C++ map holds each key once,
so erasing every occurrence coincides with erasing the found element on
every state satisfying the shard invariant. -/
def mapErase (m : List (RawKey × Nat)) (k : RawKey) : List (RawKey × Nat) :=
  match m with
  | [] => []
  | p :: rest => if p.1 = k then mapErase rest k else p :: mapErase rest k

/-- `entryMap_[k] = `(entry at slot `i`): insert-or-assign. -/
def mapInsert (m : List (RawKey × Nat)) (k : RawKey) (i : Nat) :
    List (RawKey × Nat) :=
  (k, i) :: mapErase m k

/-- Replace the contents of slot `i`. -/
def setSlot (s : Shard) (i : Nat) (v : Option Entry) : Shard :=
  { s with entries := s.entries.set i v }

/-- Update the entry held by slot `i` in place (the C++ code mutates the
entry through the pointer held by the slot). -/
def modifySlot (s : Shard) (i : Nat) (f : Entry → Entry) : Shard :=
  match s.entries[i]? with
  | some (some e) => setSlot s i (some (f e))
  | _ => s

/-! ### `CacheShard::removeEntryLocked` and `CacheShard::removeEntry`

```cpp
void CacheShard::removeEntryLocked(AsyncDataCacheEntry* entry) {
  if (!entry->key_.fileNum.hasValue()) return;
  const auto it = entryMap_.find({entry->key_.fileNum.id(), entry->key_.offset});
  VELOX_CHECK(it != entryMap_.end());
  entryMap_.erase(it);
  entry->key_.fileNum.clear();
  entry->setSsdFile(nullptr, 0);
  if (entry->isPrefetch()) entry->setPrefetch(false);
  const auto numPages = entry->data().numPages();
  if (numPages > 0) { cache_->incrementCachedPages(-numPages);
                      cache_->allocator()->freeNonContiguous(entry->data()); }
}
```
The `VELOX_CHECK` holds on every state satisfying the shard invariant
(a non-cleared key is bound in the map).  `freeNonContiguous` empties the
allocation, so `dataPages`/`dataBytes` drop to zero. -/

def removeEntryLocked (s : Shard) (i : Nat) : Shard :=
  match s.entries[i]? with
  | some (some e) =>
    match e.key with
    | none => s
    | some k =>
      let e2 : Entry :=
        { e with
            key := none
            hasSsdFile := false
            isPrefetch := false
            dataPages := 0
            dataBytes := 0 }
      { s with
          entryMap := mapErase s.entryMap k
          entries := s.entries.set i (some e2) }
  | _ => s

/-- `CacheShard::removeEntry`: remove under the mutex, then move the
promise out of the entry; the returned flag says whether a promise was
present (and is therefore realized by the caller outside the mutex). -/
def removeEntry (s : Shard) (i : Nat) : Shard × Bool :=
  let s2 := removeEntryLocked s i
  match s2.entries[i]? with
  | some (some e) =>
    (setSlot s2 i (some { e with promise := false }), e.promise)
  | _ => (s2, false)

/-! ### `AsyncDataCacheEntry::release` (claim C2)

```cpp
void AsyncDataCacheEntry::release() {
  VELOX_CHECK_NE(0, numPins_);
  if (numPins_ == kExclusive) {
    auto promise = shard_->removeEntry(this);
    if (promise != nullptr) promise->setValue(true);
    numPins_ = 0;
  } else {
    const auto oldPins = numPins_.fetch_add(-1);
    VELOX_CHECK_LE(1, oldPins, "pin count goes negative");
  }
}
```
`fatal` models a `VELOX_CHECK` failure; `removedExclusive v` records the
value the waiter promise is realized with (`none` when no promise was
present). -/

inductive ReleaseResult where
  | fatal
  | removedExclusive (promiseValue : Option Bool)
  | decremented
deriving DecidableEq, Repr

def release (s : Shard) (i : Nat) : Shard × ReleaseResult :=
  match s.entries[i]? with
  | some (some e) =>
    if e.numPins = 0 then (s, .fatal)
    else if e.numPins = kExclusive then
      let (s2, hadPromise) := removeEntry s i
      let s3 := modifySlot s2 i (fun e2 => { e2 with numPins := 0 })
      (s3, .removedExclusive (if hadPromise then some true else none))
    else
      if 1 ≤ e.numPins then
        (modifySlot s i (fun e2 => { e2 with numPins := e2.numPins - 1 }),
          .decremented)
      else (s, .fatal)
  | _ => (s, .fatal)

/-! ### `CacheShard::exists` (claim C10)

```cpp
bool CacheShard::exists(RawFileCacheKey key) const {
  std::lock_guard<std::mutex> l(mutex_);
  auto it = entryMap_.find(key);
  if (it != entryMap_.end()) { it->second->touch(); return true; }
  return false;
}
```
`now` is the access-time stamp `touch` records. -/

def existsOp (s : Shard) (k : RawKey) (now : Nat) : Shard × Bool :=
  match mapLookup s.entryMap k with
  | none => (s, false)
  | some i => (modifySlot s i (fun e => e.touch now), true)

/-- `CacheShard::appendSsdSaveable` at the shard level (the loop mutates
the pinned entries through the slot pointers). -/
def appendSsdSaveableShard (s : Shard) (pins : List Entry) :
    Shard × List Entry :=
  let r := appendSsdSaveable s.entries pins
  ({ s with entries := r.1 }, r.2)

/-! ### `CacheShard::findOrCreate` and its helpers

```cpp
std::unique_ptr<AsyncDataCacheEntry> CacheShard::getFreeEntry() {
  if (freeEntries_.empty()) newEntry = std::make_unique<...>(this);
  else { newEntry = std::move(freeEntries_.back()); freeEntries_.pop_back(); }
}
void CacheShard::tryAddFreeEntry(std::unique_ptr<...>&& entry) {
  freeEntries_.push_back(std::move(entry));
  if (freeEntries_.size() >= kMaxFreeEntries)
    freeEntries_.resize(kMaxFreeEntries >> 1);
}
```
-/

def getFreeEntryFrom (freeEntries : List Entry) : Entry × List Entry :=
  match freeEntries.getLast? with
  | none => (Entry.blank, freeEntries)
  | some e => (e, freeEntries.dropLast)

def tryAddFreeEntryList (freeEntries : List Entry) (e : Entry) :
    List Entry :=
  let grown := freeEntries ++ [e]
  if grown.length ≥ kMaxFreeEntries then grown.take (kMaxFreeEntries / 2)
  else grown

/-- Result of `findOrCreate` as seen by the caller:
`emptyPin published` — the key was found exclusive, an empty pin is
returned (`published` says a wait future was handed out);
`hit i` — a shared pin on the entry at slot `i`;
`newEntry i` — an exclusive pin on the freshly created entry at slot `i`,
for the caller to fill;
`allocFailed` — `initialize` could not allocate and threw `NoCacheSpace`
after releasing the entry. -/
inductive FindResult where
  | emptyPin (published : Bool)
  | hit (i : Nat)
  | newEntry (i : Nat)
  | allocFailed
deriving DecidableEq, Repr

/-- The slot index the new entry goes to: `emptySlots_.back()` when
available, else the index `push_back` appends at. -/
def newSlotIndex (s : Shard) : Nat :=
  match s.emptySlots.getLast? with
  | none => s.entries.length
  | some j => j

/-- The slot vector after placing `v`: `entries_.push_back` on no empty
slot, else `entries_[emptySlots_.back()] = v`. -/
def insertAtSlot (s : Shard) (v : Option Entry) : List (Option Entry) :=
  match s.emptySlots.getLast? with
  | none => s.entries ++ [v]
  | some j => s.entries.set j v

/-- `emptySlots_` after the (conditional) `pop_back`. -/
def popEmptySlot (s : Shard) : List Nat :=
  match s.emptySlots.getLast? with
  | none => s.emptySlots
  | some _ => s.emptySlots.dropLast

/-- The create path of `findOrCreate` (from `getFreeEntry()` on), including
the `initEntry`/`initialize` tail that runs outside the mutex.  `allocOk`
models the success of `allocator->allocateNonContiguous` on the non-tiny
path.  The `VELOX_CHECK_EQ(entryToInit->size_, 0)` sanity assertion
(recycled entries always carry size 0) is not modelled. -/
def createEntry (s : Shard) (k : RawKey) (size : Nat) (allocOk : Bool) :
    Shard × FindResult :=
  let fr := getFreeEntryFrom s.freeEntries
  let newE : Entry := { fr.1 with
    numPins := kExclusive
    promise := false
    size := size
    isFirstUse := true }
  let idx := newSlotIndex s
  let s2 : Shard := { s with
    entries := insertAtSlot s (some newE)
    entryMap := mapInsert s.entryMap k idx
    emptySlots := popEmptySlot s
    freeEntries := fr.2
    stats := { s.stats with numNew := s.stats.numNew + 1 } }
  -- Outside the mutex: initialize(key) sets the ssd back-link to null,
  -- installs the key, then fills the tiny buffer or allocates pages.
  let s3 := modifySlot s2 idx (fun e =>
    { e with hasSsdFile := false, key := some k })
  if size < kTinyDataSize then
    (modifySlot s3 idx (fun e => { e with tinySize := size }), .newEntry idx)
  else
    let s4 := modifySlot s3 idx (fun e => { e with tinySize := 0 })
    if allocOk then
      (modifySlot s4 idx (fun e =>
        { e with
            dataPages := numPagesOf size
            dataBytes := numPagesOf size * kPageSize }), .newEntry idx)
    else
      -- Allocation failure: release() the exclusive entry and throw
      -- NoCacheSpace.
      ((release s4 idx).1, .allocFailed)

/-- `CacheShard::findOrCreate` followed by `initEntry`/`initialize`,
embedded as one atomic state transition observed at the operation's
completion.  `wait` models a non-null `wait` out-parameter; `now` is the
access-time stamp used by `touch`. -/
def findOrCreate (s : Shard) (k : RawKey) (size : Nat) (wait : Bool)
    (allocOk : Bool) (now : Nat) : Shard × FindResult :=
  let s := { s with eventCounter := s.eventCounter + 1 }
  match mapLookup s.entryMap k with
  | some i =>
    match s.entries[i]? with
    | some (some found) =>
      if found.isExclusive then
        let s := { s with
          stats := { s.stats with
            numWaitExclusive := s.stats.numWaitExclusive + 1 } }
        if wait then
          (modifySlot s i (fun e => { e with promise := true }),
            .emptyPin true)
        else (s, .emptyPin false)
      else if size ≤ found.size then
        let s :=
          if found.isPrefetch then
            modifySlot s i (fun e =>
              { e.touch now with
                  isFirstUse := true
                  isPrefetch := false
                  numPins := e.numPins + 1 })
          else
            { modifySlot s i (fun e =>
                { e.touch now with numPins := e.numPins + 1 }) with
              stats := { s.stats with
                numHit := s.stats.numHit + 1
                hitBytes := s.stats.hitBytes + found.size } }
        (s, .hit i)
      else
        -- Supersede: the old entry stays in its slot with a cleared key;
        -- possible readers of it retain valid pins.
        let s := modifySlot s i (fun e => { e with key := none })
        createEntry s k size allocOk
    | _ => createEntry s k size allocOk
  | none => createEntry s k size allocOk

/-! ### `CacheShard::updateStats`

The C++ walks the slots accumulating a `CacheStats` snapshot; the shard
itself is only read.  Only the tallies the claims mention are carried. -/

structure CacheStats where
  numEmptyEntries : Nat
  numExclusive : Nat
  numShared : Nat
  numEntries : Nat
  numPrefetch : Nat
deriving DecidableEq, Repr

def updateStats (s : Shard) (stats : CacheStats) : CacheStats :=
  s.entries.foldl
    (fun acc slot =>
      match slot with
      | none => { acc with numEmptyEntries := acc.numEmptyEntries + 1 }
      | some e =>
        if e.key = none then
          { acc with numEmptyEntries := acc.numEmptyEntries + 1 }
        else
          let acc :=
            if e.isExclusive then
              { acc with numExclusive := acc.numExclusive + 1 }
            else if e.isShared then
              { acc with numShared := acc.numShared + 1 }
            else acc
          let acc :=
            if e.isPrefetch then
              { acc with numPrefetch := acc.numPrefetch + 1 }
            else acc
          { acc with numEntries := acc.numEntries + 1 })
    stats

/-! ### `CacheShard::evict` (claims C4, C5)

The loop visits at most `entries_.size()` slots starting one past
`clockHand_ % size`, recalibrating the score threshold periodically, and
removes the candidates chosen by the source's condition.  `AccessStats::
score(now)` and the `percentile` helper live in headers outside the
sources: `score` is abstracted as an environment function on entries
(absorbing the wall-clock refreshes of `now`), and `percentile` is
modelled from the spec ("sample up to 10 entries at stride
`slots.size()/10`, take the 80th percentile of their scores"). -/

/-- Modelled from the spec: the `percentile` helper declared in a header
that is not among the sources; it reports the `pct`-th percentile of the
sampled values. -/
def percentileSpec (xs : List Int) (pct : Nat) : Int :=
  (List.insertionSort (· ≤ ·) xs).getD (xs.length * pct / 100) 0

/-- The sampling closure of `CacheShard::calibrateThreshold`: scores of up
to `n` slots starting at `idx`, advancing by `step` with the source's
wrap rule; an empty slot scores 0. -/
def calibrateSamples (score : Entry → Int) (entries : List (Option Entry))
    (step : Nat) : Nat → Nat → List Int
  | 0, _ => []
  | n + 1, idx =>
    let sc : Int :=
      match entries[idx]? with
      | some (some e) => score e
      | _ => 0
    let idx2 :=
      if entries.length ≤ idx + step then (idx + step) % entries.length
      else idx + step
    sc :: calibrateSamples score entries step n idx2

/-- `CacheShard::calibrateThreshold`. -/
def calibrateThreshold (score : Entry → Int) (s : Shard) : Int :=
  let numSamples := min 10 s.entries.length
  let entryIndex := s.clockHand % s.entries.length
  let step := s.entries.length / numSamples
  percentileSpec (calibrateSamples score s.entries step numSamples entryIndex)
    80

/-- Environment of one eviction pass: the SSD tier state sampled at entry
(`skipSsdSaveable = ssdCache && ssdCache->writeInProgress()`), the
desperation flag, the byte target, and the header-level score function. -/
structure EvictEnv where
  hasSsdCache : Bool
  writeInProgress : Bool
  evictAllUnpinned : Bool
  bytesToFree : Nat
  score : Entry → Int

/-- Accumulator of one eviction pass: the shard, the residual
`pagesToAcquire`, the pages moved into the caller's `acquired` allocation,
the batched allocations to free outside the lock (as page counts), the
freed-byte tallies, the `evictSaveableSkipped` counter and the loop-local
`numChecked`. -/
structure EvictState where
  shard : Shard
  pagesToAcquire : Nat
  acquiredPages : Nat
  toFree : List Nat
  tinyFreed : Nat
  largeFreed : Nat
  saveableSkipped : Nat
  numChecked : Nat

/-- The shard-level effect of evicting the candidate at slot `idx`: its
allocation has been moved out (`appendMove`/`toFree`), `removeEntryLocked`
erases its binding and clears its key, the slot index joins `emptySlots_`,
the tiny buffer is dropped, `size_` is reset and the drained entry goes to
the free-entry recycler while the slot empties. -/
def evictSlot (s : Shard) (idx : Nat) (c : Entry) : Shard :=
  let s3 := setSlot s idx (some { c with dataPages := 0, dataBytes := 0 })
  let s4 := removeEntryLocked s3 idx
  let s5 := { s4 with emptySlots := s4.emptySlots ++ [idx] }
  match s5.entries[idx]? with
  | some (some drained) =>
    let recycled : Entry := { drained with tinySize := 0, size := 0 }
    let s6 := setSlot s5 idx none
    { s6 with freeEntries := tryAddFreeEntryList s6.freeEntries recycled }
  | _ => s5

/-- The periodic recalibration inside the loop body: when the threshold is
unset, or `eventCounter_ > entries_.size() / 4`, or
`numChecked > entries_.size() / 8`, re-run `calibrateThreshold` and reset
the two counters. -/
def calibratePass (env : EvictEnv) (numChecked : Nat) (s1 : Shard) :
    Shard × Nat :=
  if s1.evictionThreshold = kNoThreshold ∨
      s1.entries.length / 4 < s1.eventCounter ∨
      s1.entries.length / 8 < numChecked then
    ({ s1 with
        evictionThreshold := calibrateThreshold env.score s1
        eventCounter := 0 }, 0)
  else (s1, numChecked)

/-- Transfer of the candidate's pages: into the caller's `acquired`
allocation while `pagesToAcquire > 0`, else batched into `toFree`. -/
def acquireOrBatch (st1 : EvictState) (c : Entry) : EvictState :=
  if 0 < st1.pagesToAcquire then
    { st1 with
        pagesToAcquire :=
          if st1.pagesToAcquire < c.dataPages then 0
          else st1.pagesToAcquire - c.dataPages
        acquiredPages := st1.acquiredPages + c.dataPages }
  else { st1 with toFree := st1.toFree ++ [c.dataPages] }

/-- The body of one eviction-loop iteration after the periodic
recalibration: the eviction condition, the SSD bypass rule, and the
removal of the candidate.  `s2` is the (possibly recalibrated) shard and
`numChecked` the (possibly reset) check counter. -/
def evictStepBody (env : EvictEnv) (skipSsd : Bool) (idx : Nat)
    (st : EvictState) (candidate : Entry) (s2 : Shard) (numChecked : Nat) :
    EvictState × Bool :=
  let scoreVal : Int :=
    if candidate.key = none ∨ env.evictAllUnpinned then 0
    else env.score candidate
  if candidate.numPins = 0 ∧
      (candidate.key = none ∨ env.evictAllUnpinned ∨
        s2.evictionThreshold ≤ scoreVal) then
    if skipSsd ∧ candidate.ssdSaveable ∧ ¬ env.evictAllUnpinned then
      ({ st with
          shard := s2
          numChecked := numChecked
          saveableSkipped := st.saveableSkipped + 1 }, false)
    else
      let st1 := { st with
        shard := s2
        numChecked := numChecked
        largeFreed := st.largeFreed + candidate.dataBytes }
      let st2 := acquireOrBatch st1 candidate
      let s6 := evictSlot s2 idx candidate
      let s7 := { s6 with stats := { s6.stats with
        numEvict := s6.stats.numEvict + 1
        sumEvictScore :=
          if scoreVal ≠ 0 then s6.stats.sumEvictScore + scoreVal
          else s6.stats.sumEvictScore } }
      let st3 := { st2 with
        shard := s7
        tinyFreed := st2.tinyFreed + candidate.tinySize }
      (st3, decide (env.bytesToFree < st3.largeFreed + st3.tinyFreed))
  else ({ st with shard := s2, numChecked := numChecked }, false)

/-- One iteration of the eviction loop, examining slot `idx`; the flag is
true when the loop breaks (`largeFreed + tinyFreed > bytesToFree`).
`tinyFreed` grows by the candidate's `tinyData_.size()`, read in the
source after `removeEntryLocked` (which leaves the tiny buffer alone). -/
def evictStep (env : EvictEnv) (skipSsd : Bool) (idx : Nat)
    (st : EvictState) : EvictState × Bool :=
  let s0 := st.shard
  let s0 := { s0 with stats := { s0.stats with
    numEvictChecks := s0.stats.numEvictChecks + 1 } }
  match s0.entries[idx]? with
  | some (some candidate) =>
    let s1 := { s0 with clockHand := s0.clockHand + 1 }
    let cal := calibratePass env (st.numChecked + 1) s1
    evictStepBody env skipSsd idx st candidate cal.1 cal.2
  | _ => ({ st with shard := s0 }, false)

/-- The eviction loop: at most `size` iterations (`while (++counter <=
size)`), advancing the slot cursor with wrap-around. -/
def evictLoop (env : EvictEnv) (skipSsd : Bool) (size : Nat) :
    Nat → Nat → EvictState → EvictState
  | 0, _, st => st
  | fuel + 1, entryIndex, st =>
    let idx := if entryIndex + 1 = size then 0 else entryIndex + 1
    let (st2, stop) := evictStep env skipSsd idx st
    if stop then st2 else evictLoop env skipSsd size fuel idx st2

/-- `CacheShard::evict` up to the release of the shard mutex. -/
def evict (s : Shard) (env : EvictEnv) (pagesToAcquire : Nat) : EvictState :=
  let skipSsd := env.hasSsdCache ∧ env.writeInProgress
  let st0 : EvictState :=
    { shard := s, pagesToAcquire := pagesToAcquire, acquiredPages := 0,
      toFree := [], tinyFreed := 0, largeFreed := 0, saveableSkipped := 0,
      numChecked := 0 }
  if s.entries.length = 0 then st0
  else
    evictLoop env (decide skipSsd) s.entries.length s.entries.length
      (s.clockHand % s.entries.length) st0

/-- The tail of `CacheShard::evict`, outside the mutex:

```cpp
if (evictSaveableSkipped && ssdCache && ssdCache->startWrite()) {
  ... cache_->numSkippedSaves() = 0; cache_->saveToSsd();
} else if (evictSaveableSkipped) { ++cache_->numSkippedSaves(); }
```
`startWriteOk` models `ssdCache->startWrite()` (false when a write is
already in progress). -/
inductive SsdSavePost where
  | startedSave
  | skippedCounted
  | noAction
deriving DecidableEq, Repr

def evictPost (saveableSkipped : Nat) (hasSsdCache startWriteOk : Bool) :
    SsdSavePost :=
  if saveableSkipped ≠ 0 ∧ hasSsdCache ∧ startWriteOk then .startedSave
  else if saveableSkipped ≠ 0 then .skippedCounted
  else .noAction

/-! ### `CoalescedLoad` (claim C7)

```cpp
bool CoalescedLoad::loadOrFuture(folly::SemiFuture<bool>* wait) { ... }
void CoalescedLoad::setEndState(State endState) {
  std::lock_guard<std::mutex> l(mutex_);
  state_ = endState;
  if (promise_ != nullptr) { promise_->setValue(true); promise_.reset(); }
}
```
`loadData` (a subclass hook) is an input: either a list of entries the
returned exclusive pins reference, or a thrown exception.  The entry-level
`setExclusiveToShared` resets the pin count to 1 and realizes the entry's
waiter promise with `true`; whether the SSD oracle then marks the entry
saveable is outside this claim and left to an oracle. -/

inductive LoadState where
  | kPlanned
  | kLoading
  | kLoaded
  | kCancelled
deriving DecidableEq, Repr

structure Load where
  state : LoadState
  promise : Bool
deriving DecidableEq, Repr

/-- `CoalescedLoad::setEndState`; the flag reports whether a promise was
present and hence realized with `true`. -/
def setEndState (l : Load) (endState : LoadState) : Load × Bool :=
  ({ state := endState, promise := false }, l.promise)

/-- `AsyncDataCacheEntry::setExclusiveToShared` as it acts on the entry:
pin count becomes 1, the waiter promise is moved out and realized with
`true`; `shouldSave` is the SSD oracle's verdict
(`groupStats().shouldSaveToSsd`), consulted only when the entry has no SSD
back-link and an SSD tier exists. -/
def setExclusiveToShared (hasSsdCache : Bool) (shouldSave : Entry → Bool)
    (e : Entry) : Entry :=
  let e2 : Entry := { e with numPins := 1, promise := false }
  if ¬ e.hasSsdFile ∧ hasSsdCache ∧ shouldSave e then
    { e2 with ssdSaveable := true }
  else e2

/-- Outcome of `loadOrFuture`: a normal return (with the published-future
flag), a re-raised `loadData` exception, or a fatal `VELOX_CHECK` on a pin
that is not exclusive or has no key. -/
inductive LoadOutcome where
  | ret (value : Bool) (futurePublished : Bool)
  | raised
  | fatal
deriving DecidableEq, Repr

structure LoadResult where
  load : Load
  outcome : LoadOutcome
  /-- The entries of the returned pins after their transition to shared
  (empty on the non-`kPlanned` paths). -/
  sharedEntries : List Entry
  /-- Whether `setEndState` realized a waiter promise (with `true`). -/
  promiseFulfilled : Bool
deriving DecidableEq, Repr

/-- `CoalescedLoad::loadOrFuture`.  `wait` models a non-null `wait`
out-parameter; `loadData` the subclass load (`Except.error` models a
thrown exception). -/
def loadOrFuture (l : Load) (wait : Bool)
    (loadData : Except Unit (List Entry)) (hasSsdCache : Bool)
    (shouldSave : Entry → Bool) : LoadResult :=
  match l.state with
  | .kCancelled =>
    { load := l, outcome := .ret true false, sharedEntries := [],
      promiseFulfilled := false }
  | .kLoaded =>
    { load := l, outcome := .ret true false, sharedEntries := [],
      promiseFulfilled := false }
  | .kLoading =>
    if wait then
      { load := { l with promise := true }, outcome := .ret false true,
        sharedEntries := [], promiseFulfilled := false }
    else
      { load := l, outcome := .ret false false, sharedEntries := [],
        promiseFulfilled := false }
  | .kPlanned =>
    let l2 : Load := { l with state := .kLoading }
    match loadData with
    | .error _ =>
      let (l3, fulfilled) := setEndState l2 .kCancelled
      { load := l3, outcome := .raised, sharedEntries := [],
        promiseFulfilled := fulfilled }
    | .ok pins =>
      if pins.all (fun e => e.key.isSome && e.isExclusive) then
        let shared := pins.map (setExclusiveToShared hasSsdCache shouldSave)
        let (l3, fulfilled) := setEndState l2 .kLoaded
        { load := l3, outcome := .ret true false, sharedEntries := shared,
          promiseFulfilled := fulfilled }
      else
        -- A failed VELOX_CHECK throws; the catch still runs setEndState.
        let (l3, fulfilled) := setEndState l2 .kCancelled
        { load := l3, outcome := .fatal, sharedEntries := [],
          promiseFulfilled := fulfilled }

/-! ### `AsyncDataCache::makeSpace` (claim C3)

The loop structure is embedded with the allocator interaction abstracted
to an oracle `tryOk n`, true when attempt `n`'s `canTryAllocate` gate
passes and the `allocate(acquired)` closure succeeds.  The sleeps, the
backoff and the byte-size computation (floating-point `sizeMultiplier`)
have no effect on the claimed loop shape and are not modelled; each evict
call is recorded in a trace as `(nthAttempt, evictAllUnpinned)`. -/

structure MakeSpaceResult where
  success : Bool
  failureRecorded : Bool
  evictTrace : List (Nat × Bool)
deriving DecidableEq, Repr

def makeSpaceGo (numShards : Nat) (tryOk : Nat → Bool) (maxAttempts : Nat)
    (nthAttempt : Nat) (trace : List (Nat × Bool)) : MakeSpaceResult :=
  if nthAttempt < maxAttempts then
    if tryOk nthAttempt then
      { success := true, failureRecorded := false, evictTrace := trace }
    else
      makeSpaceGo numShards tryOk maxAttempts (nthAttempt + 1)
        (trace ++ [(nthAttempt, decide (numShards ≤ nthAttempt))])
  else
    { success := false, failureRecorded := true, evictTrace := trace }
termination_by maxAttempts - nthAttempt

/-- `AsyncDataCache::makeSpace`, with `kMaxAttempts = kNumShards * 4` and
the desperation flag `nthAttempt >= kNumShards` from the source. -/
def makeSpace (numShards : Nat) (tryOk : Nat → Bool) : MakeSpaceResult :=
  makeSpaceGo numShards tryOk (numShards * 4) 0 []

/-! ### The shard map invariant (claim C6)

`Inv3` is the invariant of the shard's map/slot structure: every map
binding points to a live slot whose entry carries the binding's key;
every live entry with a non-cleared key is bound in the map; map keys are
unique (as in `unordered_map`); `emptySlots_` holds indices of empty
slots, without duplicates. -/

def Inv3 (entries : List (Option Entry)) (m : List (RawKey × Nat))
    (es : List Nat) : Prop :=
  (∀ p ∈ m, ∃ e : Entry, entries[p.2]? = some (some e) ∧ e.key = some p.1) ∧
  (∀ (i : Nat) (e : Entry), entries[i]? = some (some e) →
    ∀ k, e.key = some k → (k, i) ∈ m) ∧
  (m.map Prod.fst).Nodup ∧
  (∀ j ∈ es, entries[j]? = some none) ∧
  es.Nodup

def ShardInv (s : Shard) : Prop := Inv3 s.entries s.entryMap s.emptySlots

/-- The spec's phrasing of the invariant: an entry is present in the
shard's map iff its key's file id is non-cleared. -/
def mapIffKey (s : Shard) : Prop :=
  ∀ i e, s.entries[i]? = some (some e) →
    ((∃ k, (k, i) ∈ s.entryMap) ↔ e.key ≠ none)

/-- The weakened invariant holding between the moment `findOrCreate`
clears a superseded entry's key (or finds no entry for `k`) and the moment
the map is rebound: bindings for keys other than `k` are intact, and no
live entry carries `k`. -/
def Inv3Pre (entries : List (Option Entry)) (m : List (RawKey × Nat))
    (es : List Nat) (k : RawKey) : Prop :=
  (∀ p ∈ m, p.1 ≠ k →
    ∃ e : Entry, entries[p.2]? = some (some e) ∧ e.key = some p.1) ∧
  (∀ (i : Nat) (e : Entry), entries[i]? = some (some e) →
    e.key ≠ some k) ∧
  (∀ (i : Nat) (e : Entry), entries[i]? = some (some e) →
    ∀ k2, e.key = some k2 → (k2, i) ∈ m) ∧
  (m.map Prod.fst).Nodup ∧
  (∀ j ∈ es, entries[j]? = some none) ∧
  es.Nodup

end Velox

namespace Velox

/-! ## Association-list lemmas -/

theorem mapLookup_mem {m : List (RawKey × Nat)} {k : RawKey} {i : Nat}
    (h : mapLookup m k = some i) : (k, i) ∈ m := by
  induction m with
  | nil => simp [mapLookup] at h
  | cons p rest ih =>
    obtain ⟨p1, p2⟩ := p
    by_cases hp : p1 = k
    · subst hp
      simp only [mapLookup, if_pos] at h
      injection h with h2
      subst h2
      exact List.mem_cons_self _ _
    · simp only [mapLookup, hp, ite_false] at h
      exact List.mem_cons_of_mem _ (ih h)

theorem mapLookup_eq_none_iff {m : List (RawKey × Nat)} {k : RawKey} :
    mapLookup m k = none ↔ ∀ i, (k, i) ∉ m := by
  induction m with
  | nil => simp [mapLookup]
  | cons p rest ih =>
    obtain ⟨p1, p2⟩ := p
    by_cases hp : p1 = k
    · subst hp
      simp only [mapLookup, if_pos]
      constructor
      · intro h; cases h
      · intro h
        exact absurd (List.mem_cons_self (p1, p2) rest) (h p2)
    · simp only [mapLookup, hp, ite_false, ih]
      constructor
      · intro h i hm
        rcases List.mem_cons.mp hm with h1 | h1
        · exact hp (congrArg Prod.fst h1).symm
        · exact h i h1
      · intro h i hm
        exact h i (List.mem_cons_of_mem _ hm)

theorem mem_mapErase {m : List (RawKey × Nat)} {k : RawKey}
    {p : RawKey × Nat} : p ∈ mapErase m k ↔ p ∈ m ∧ p.1 ≠ k := by
  induction m with
  | nil => simp [mapErase]
  | cons q rest ih =>
    by_cases hq : q.1 = k
    · simp only [mapErase, hq, if_pos, ih, List.mem_cons]
      constructor
      · rintro ⟨h1, h2⟩; exact ⟨Or.inr h1, h2⟩
      · rintro ⟨h1 | h1, h2⟩
        · exact absurd (h1 ▸ hq) h2
        · exact ⟨h1, h2⟩
    · simp only [mapErase, hq, ite_false, List.mem_cons, ih]
      constructor
      · rintro (h | ⟨h1, h2⟩)
        · exact ⟨Or.inl h, h ▸ hq⟩
        · exact ⟨Or.inr h1, h2⟩
      · rintro ⟨h1 | h1, h2⟩
        · exact Or.inl h1
        · exact Or.inr ⟨h1, h2⟩

theorem mapErase_fst_sublist (m : List (RawKey × Nat)) (k : RawKey) :
    ((mapErase m k).map Prod.fst).Sublist (m.map Prod.fst) := by
  induction m with
  | nil => simp [mapErase]
  | cons q rest ih =>
    by_cases hq : q.1 = k
    · simpa [mapErase, hq] using ih.trans (List.sublist_cons_self _ _)
    · simpa [mapErase, hq] using ih.cons₂ q.1

theorem mapLookup_mapErase_self (m : List (RawKey × Nat)) (k : RawKey) :
    mapLookup (mapErase m k) k = none := by
  rw [mapLookup_eq_none_iff]
  intro i hm
  exact (mem_mapErase.mp hm).2 rfl

theorem mapLookup_mapErase_ne {k2 k : RawKey} (h : k2 ≠ k)
    (m : List (RawKey × Nat)) :
    mapLookup (mapErase m k) k2 = mapLookup m k2 := by
  induction m with
  | nil => rfl
  | cons q rest ih =>
    obtain ⟨q1, q2⟩ := q
    by_cases hq : q1 = k
    · have hne : q1 ≠ k2 := by rw [hq]; exact fun hh => h hh.symm
      simp [mapErase, mapLookup, hq, hne, Ne.symm h, ih]
    · by_cases hq2 : q1 = k2
      · simp [mapErase, mapLookup, hq, hq2, h, ih]
      · simp [mapErase, mapLookup, hq, hq2, ih]

theorem keys_unique {m : List (RawKey × Nat)}
    (hnd : (m.map Prod.fst).Nodup) {k : RawKey} {a b : Nat}
    (ha : (k, a) ∈ m) (hb : (k, b) ∈ m) : a = b := by
  have h2 : ((k, a) : RawKey × Nat) = (k, b) :=
    List.inj_on_of_nodup_map hnd ha hb rfl
  exact congrArg Prod.snd h2

theorem mapLookup_of_mem {m : List (RawKey × Nat)}
    (hnd : (m.map Prod.fst).Nodup) {k : RawKey} {i : Nat}
    (h : (k, i) ∈ m) : mapLookup m k = some i := by
  cases hh : mapLookup m k with
  | none => exact absurd h (mapLookup_eq_none_iff.mp hh i)
  | some j =>
    have hji : j = i := keys_unique hnd (mapLookup_mem hh) h
    rw [hji]

/-- `ShardInv` gives the spec's iff between map presence and a non-cleared
key. -/
theorem ShardInv.toMapIffKey {s : Shard} (h : ShardInv s) : mapIffKey s := by
  obtain ⟨h1, h2, _, _, _⟩ := h
  intro i e he
  constructor
  · rintro ⟨k, hk⟩ hnone
    obtain ⟨e2, he2, hke2⟩ := h1 (k, i) hk
    rw [he] at he2
    cases he2
    rw [hnone] at hke2
    cases hke2
  · intro hne
    cases hk : e.key with
    | none => exact absurd hk hne
    | some k => exact ⟨k, h2 i e he k hk⟩

/-! ## Invariant preservation lemmas -/

theorem slot_lt {α : Type} {l : List α} {i : Nat} {x : α}
    (h : l[i]? = some x) : i < l.length := by
  rcases List.getElem?_eq_some.mp h with ⟨hh, _⟩
  exact hh

/-- Replacing a live slot's entry by one with the same key preserves the
invariant. -/
theorem Inv3_set_keyEq {entries : List (Option Entry)}
    {m : List (RawKey × Nat)} {es : List Nat} {i : Nat} {e e' : Entry}
    (hInv : Inv3 entries m es) (hi : entries[i]? = some (some e))
    (hkey : e'.key = e.key) :
    Inv3 (entries.set i (some e')) m es := by
  obtain ⟨h1, h2, h3, h4, h5⟩ := hInv
  have hlen : i < entries.length := slot_lt hi
  refine ⟨?_, ?_, h3, ?_, h5⟩
  · intro p hp
    obtain ⟨f, hf, hfk⟩ := h1 p hp
    by_cases hpi : p.2 = i
    · subst hpi
      rw [hi] at hf
      injection hf with hf2
      injection hf2 with hf3
      refine ⟨e', List.getElem?_set_self hlen, ?_⟩
      rw [hkey, hf3]
      exact hfk
    · exact ⟨f, by
        rw [List.getElem?_set_ne (fun hh => hpi hh.symm)]; exact hf, hfk⟩
  · intro j f hf k hk
    by_cases hji : j = i
    · subst hji
      rw [List.getElem?_set_self hlen] at hf
      injection hf with hf2
      injection hf2 with hf3
      exact h2 j e hi k (by rw [← hf3] at hk; rw [← hkey]; exact hk)
    · rw [List.getElem?_set_ne (fun hh => hji hh.symm)] at hf
      exact h2 j f hf k hk
  · intro j hj
    have h := h4 j hj
    by_cases hji : j = i
    · subst hji
      rw [hi] at h
      injection h with h2
      cases h2
    · rw [List.getElem?_set_ne (fun hh => hji hh.symm)]
      exact h

/-- `modifySlot` with a key-preserving update preserves the invariant. -/
theorem ShardInv_modifySlot {s : Shard} {i : Nat} {f : Entry → Entry}
    (hInv : ShardInv s) (hf : ∀ e, (f e).key = e.key) :
    ShardInv (modifySlot s i f) := by
  unfold modifySlot
  cases h : s.entries[i]? with
  | none => exact hInv
  | some slot =>
    cases slot with
    | none => exact hInv
    | some e => exact Inv3_set_keyEq hInv h (hf e)

/-- `removeEntryLocked` preserves the invariant. -/
theorem ShardInv_removeEntryLocked {s : Shard} {i : Nat}
    (hInv : ShardInv s) : ShardInv (removeEntryLocked s i) := by
  unfold removeEntryLocked
  split
  case h_2 => exact hInv
  case h_1 e hslot =>
    split
    case h_1 => exact hInv
    case h_2 k hk =>
      obtain ⟨h1, h2, h3, h4, h5⟩ := hInv
      have hlen : i < s.entries.length := slot_lt hslot
      refine ⟨?_, ?_, ?_, ?_, h5⟩
      · intro p hp
        obtain ⟨hpm, hpk⟩ := mem_mapErase.mp hp
        obtain ⟨f, hf, hfk⟩ := h1 p hpm
        by_cases hpi : p.2 = i
        · subst hpi
          rw [hslot] at hf
          injection hf with hf2
          injection hf2 with hf3
          rw [← hf3, hk] at hfk
          injection hfk with hfk2
          exact absurd hfk2.symm hpk
        · exact ⟨f, by
            rw [List.getElem?_set_ne (fun hh => hpi hh.symm)]; exact hf,
            hfk⟩
      · intro j f hf k2 hk2
        by_cases hji : j = i
        · subst hji
          rw [List.getElem?_set_self hlen] at hf
          injection hf with hf2
          injection hf2 with hf3
          rw [← hf3] at hk2
          exact absurd hk2 (by intro hh; cases hh)
        · rw [List.getElem?_set_ne (fun hh => hji hh.symm)] at hf
          have hmem := h2 j f hf k2 hk2
          refine mem_mapErase.mpr ⟨hmem, ?_⟩
          intro hkk
          have hk2k : k2 = k := hkk
          have hmem2 := h2 i e hslot k hk
          have := keys_unique h3 (hk2k ▸ hmem) hmem2
          exact hji this
      · exact (mapErase_fst_sublist s.entryMap k).nodup h3
      · intro j hj
        have h := h4 j hj
        by_cases hji : j = i
        · subst hji
          rw [hslot] at h
          injection h with h2
          cases h2
        · rw [List.getElem?_set_ne (fun hh => hji hh.symm)]
          exact h

/-- After removal (the slot's entry has a cleared key), emptying the slot,
recording it in `emptySlots_` and recycling the entry preserve the
invariant. -/
theorem Inv3_vacate {s : Shard} {i : Nat} {e : Entry}
    (hInv : ShardInv s) (hi : s.entries[i]? = some (some e))
    (hk : e.key = none) :
    Inv3 (s.entries.set i none) s.entryMap (s.emptySlots ++ [i]) := by
  obtain ⟨h1, h2, h3, h4, h5⟩ := hInv
  have hlen : i < s.entries.length := slot_lt hi
  have hnotes : i ∉ s.emptySlots := by
    intro hmem
    have h := h4 i hmem
    rw [hi] at h
    injection h with h2
    cases h2
  refine ⟨?_, ?_, h3, ?_, ?_⟩
  · intro p hp
    obtain ⟨f, hf, hfk⟩ := h1 p hp
    by_cases hpi : p.2 = i
    · subst hpi
      rw [hi] at hf
      injection hf with hf2
      injection hf2 with hf3
      rw [← hf3, hk] at hfk
      cases hfk
    · exact ⟨f, by
        rw [List.getElem?_set_ne (fun hh => hpi hh.symm)]; exact hf, hfk⟩
  · intro j f hf k2 hk2
    by_cases hji : j = i
    · subst hji
      rw [List.getElem?_set_self hlen] at hf
      cases hf
    · rw [List.getElem?_set_ne (fun hh => hji hh.symm)] at hf
      exact h2 j f hf k2 hk2
  · intro j hj
    rcases List.mem_append.mp hj with hj1 | hj1
    · have h := h4 j hj1
      have hji : ¬ j = i := by
        intro hh
        subst hh
        rw [hi] at h
        injection h with h2
        cases h2
      rw [List.getElem?_set_ne (fun hh => hji hh.symm)]
      exact h
    · have hji : j = i := by simpa using hj1
      subst hji
      rw [List.getElem?_set_self hlen]
  · refine List.Nodup.append h5 (by simp) ?_
    intro a ha hb
    have hb2 : a = i := by simpa using hb
    subst hb2
    exact hnotes ha

/-- `removeEntry` preserves the invariant. -/
theorem ShardInv_removeEntry {s : Shard} {i : Nat} (hInv : ShardInv s) :
    ShardInv (removeEntry s i).1 := by
  have hrem := ShardInv_removeEntryLocked (i := i) hInv
  unfold removeEntry
  cases h : (removeEntryLocked s i).entries[i]? with
  | none => simpa [h] using hrem
  | some slot =>
    cases slot with
    | none => simpa [h] using hrem
    | some e =>
      simp only [h]
      exact Inv3_set_keyEq hrem h rfl

/-- `release` preserves the invariant. -/
theorem ShardInv_release {s : Shard} {i : Nat} (hInv : ShardInv s) :
    ShardInv (release s i).1 := by
  unfold release
  split
  case h_2 => exact hInv
  case h_1 e h =>
    by_cases h0 : e.numPins = 0
    · simpa [h0] using hInv
    · by_cases hex : e.numPins = kExclusive
      · simp only [h0, if_false, hex, if_true, ite_true, ite_false]
        exact ShardInv_modifySlot (ShardInv_removeEntry hInv)
          (fun e2 => rfl)
      · by_cases h1 : 1 ≤ e.numPins
        · simp only [h0, hex, h1, if_false, if_true, ite_true, ite_false]
          exact ShardInv_modifySlot hInv (fun e2 => rfl)
        · simpa [h0, hex, h1] using hInv

theorem modifySlot_eq {s : Shard} {i : Nat} {e : Entry} {f : Entry → Entry}
    (h : s.entries[i]? = some (some e)) :
    modifySlot s i f = setSlot s i (some (f e)) := by
  unfold modifySlot
  rw [h]

theorem not_mem_mapErase_keys (m : List (RawKey × Nat)) (k : RawKey) :
    k ∉ (mapErase m k).map Prod.fst := by
  intro hmem
  obtain ⟨p, hp, hpk⟩ := List.mem_map.mp hmem
  exact (mem_mapErase.mp hp).2 hpk

/-- A missing key weakens the invariant to `Inv3Pre`. -/
theorem Pre_of_miss {entries : List (Option Entry)}
    {m : List (RawKey × Nat)} {es : List Nat} {k : RawKey}
    (hInv : Inv3 entries m es) (hl : mapLookup m k = none) :
    Inv3Pre entries m es k := by
  obtain ⟨h1, h2, h3, h4, h5⟩ := hInv
  refine ⟨fun p hp _ => h1 p hp, ?_, h2, h3, h4, h5⟩
  intro i e he hk
  exact mapLookup_eq_none_iff.mp hl i (h2 i e he k hk)

/-- Clearing the superseded entry's key weakens the invariant to
`Inv3Pre`. -/
theorem Pre_of_supersede {entries : List (Option Entry)}
    {m : List (RawKey × Nat)} {es : List Nat} {k : RawKey} {i : Nat}
    {old : Entry} (hInv : Inv3 entries m es)
    (hslot : entries[i]? = some (some old)) (hk : old.key = some k) :
    Inv3Pre (entries.set i (some { old with key := none })) m es k := by
  obtain ⟨h1, h2, h3, h4, h5⟩ := hInv
  have hlen : i < entries.length := slot_lt hslot
  have hbind : (k, i) ∈ m := h2 i old hslot k hk
  refine ⟨?_, ?_, ?_, h3, ?_, h5⟩
  · intro p hp hpk
    obtain ⟨f, hf, hfk⟩ := h1 p hp
    by_cases hpi : p.2 = i
    · subst hpi
      rw [hslot] at hf
      injection hf with hf2
      injection hf2 with hf3
      rw [← hf3, hk] at hfk
      injection hfk with hfk2
      exact absurd hfk2.symm hpk
    · exact ⟨f, by
        rw [List.getElem?_set_ne (fun hh => hpi hh.symm)]; exact hf, hfk⟩
  · intro j f hf hfk
    by_cases hji : j = i
    · subst hji
      rw [List.getElem?_set_self hlen] at hf
      injection hf with hf2
      injection hf2 with hf3
      rw [← hf3] at hfk
      exact absurd hfk (by intro hh; cases hh)
    · rw [List.getElem?_set_ne (fun hh => hji hh.symm)] at hf
      have := h2 j f hf k hfk
      exact hji (keys_unique h3 this hbind)
  · intro j f hf k2 hk2
    by_cases hji : j = i
    · subst hji
      rw [List.getElem?_set_self hlen] at hf
      injection hf with hf2
      injection hf2 with hf3
      rw [← hf3] at hk2
      exact absurd hk2 (by intro hh; cases hh)
    · rw [List.getElem?_set_ne (fun hh => hji hh.symm)] at hf
      exact h2 j f hf k2 hk2
  · intro j hj
    have h := h4 j hj
    by_cases hji : j = i
    · subst hji
      rw [hslot] at h
      injection h with h2
      cases h2
    · rw [List.getElem?_set_ne (fun hh => hji hh.symm)]
      exact h

/-- Rebinding `k` to a slot holding an entry keyed `k` restores `Inv3`
from `Inv3Pre`, for any slot placement that leaves all other slots
alone. -/
theorem Inv3_insert {entries entries2 : List (Option Entry)}
    {m : List (RawKey × Nat)} {es es2 : List Nat} {k : RawKey} {idx : Nat}
    {e2 : Entry} (hPre : Inv3Pre entries m es k)
    (hidx : entries2[idx]? = some (some e2)) (hkey : e2.key = some k)
    (hother : ∀ j, j ≠ idx → entries2[j]? = entries[j]?)
    (hold : ∀ f : Entry, entries[idx]? ≠ some (some f))
    (hes : ∀ j ∈ es2, j ∈ es ∧ j ≠ idx) (hnd : es2.Nodup) :
    Inv3 entries2 (mapInsert m k idx) es2 := by
  obtain ⟨h1, h2, h3, h4, h5, h6⟩ := hPre
  refine ⟨?_, ?_, ?_, ?_, hnd⟩
  · intro p hp
    rcases List.mem_cons.mp hp with hp1 | hp1
    · subst hp1
      exact ⟨e2, hidx, hkey⟩
    · obtain ⟨hpm, hpk⟩ := mem_mapErase.mp hp1
      obtain ⟨f, hf, hfk⟩ := h1 p hpm hpk
      by_cases hpi : p.2 = idx
      · subst hpi
        exact absurd hf (hold f)
      · exact ⟨f, by rw [hother p.2 hpi]; exact hf, hfk⟩
  · intro j f hf k2 hk2
    by_cases hji : j = idx
    · subst hji
      rw [hidx] at hf
      injection hf with hf2
      injection hf2 with hf3
      rw [← hf3, hkey] at hk2
      injection hk2 with hk3
      rw [← hk3]
      exact List.mem_cons_self _ _
    · rw [hother j hji] at hf
      have hmem := h3 j f hf k2 hk2
      have hk2k : k2 ≠ k := fun hh => h2 j f hf (hh ▸ hk2)
      exact List.mem_cons_of_mem _ (mem_mapErase.mpr ⟨hmem, hk2k⟩)
  · refine List.Nodup.cons ?_ ((mapErase_fst_sublist m k).nodup h4)
    exact not_mem_mapErase_keys m k
  · intro j hj
    obtain ⟨hj1, hj2⟩ := hes j hj
    rw [hother j hj2]
    exact h5 j hj1

/-- The new entry's slot holds it after `insertAtSlot`. -/
theorem insertAtSlot_self {s : Shard} {v : Option Entry}
    (hes : ∀ j ∈ s.emptySlots, s.entries[j]? = some none) :
    (insertAtSlot s v)[newSlotIndex s]? = some v := by
  unfold insertAtSlot newSlotIndex
  cases hlast : s.emptySlots.getLast? with
  | none => exact List.getElem?_concat_length _ _
  | some j =>
    have hj : j ∈ s.emptySlots := List.mem_of_mem_getLast? hlast
    exact List.getElem?_set_self (slot_lt (hes j hj))

/-- All other slots are untouched by `insertAtSlot`. -/
theorem insertAtSlot_ne {s : Shard} {v : Option Entry} {j : Nat}
    (hj : j ≠ newSlotIndex s) : (insertAtSlot s v)[j]? = s.entries[j]? := by
  unfold newSlotIndex at hj
  unfold insertAtSlot
  cases hlast : s.emptySlots.getLast? with
  | none =>
    rw [hlast] at hj
    rcases Nat.lt_or_ge j s.entries.length with hlt | hge
    · rw [List.getElem?_append]
      simp [hlt]
    · have hj2 : s.entries.length < j := lt_of_le_of_ne hge
        (fun hh => hj hh.symm)
    
      rw [List.getElem?_eq_none (by simpa using hj2),
        List.getElem?_eq_none (le_of_lt hj2)]
  | some j0 =>
    rw [hlast] at hj
    exact List.getElem?_set_ne (fun hh => hj hh.symm)

/-- The target slot was not live before the insertion. -/
theorem newSlot_old {s : Shard}
    (hes : ∀ j ∈ s.emptySlots, s.entries[j]? = some none) :
    ∀ f : Entry, s.entries[newSlotIndex s]? ≠ some (some f) := by
  intro f hf
  unfold newSlotIndex at hf
  cases hlast : s.emptySlots.getLast? with
  | none =>
    rw [hlast] at hf
    rw [List.getElem?_eq_none (le_refl _)] at hf
    cases hf
  | some j =>
    rw [hlast] at hf
    have hj : j ∈ s.emptySlots := List.mem_of_mem_getLast? hlast
    rw [hes j hj] at hf
    injection hf with hf2
    cases hf2

/-- Remaining empty-slot records stay valid after the pop. -/
theorem popEmptySlot_mem {s : Shard} {j : Nat} (hnd : s.emptySlots.Nodup)
    (hj : j ∈ popEmptySlot s) : j ∈ s.emptySlots ∧ j ≠ newSlotIndex s := by
  unfold popEmptySlot at hj
  unfold newSlotIndex
  cases hlast : s.emptySlots.getLast? with
  | none =>
    rw [hlast] at hj
    have hes : s.emptySlots = [] := List.getLast?_eq_none_iff.mp hlast
    rw [hes] at hj
    cases hj
  | some j0 =>
    rw [hlast] at hj
    have hne : s.emptySlots ≠ [] := by
      intro hh
      rw [hh] at hlast
      cases hlast
    have hdecomp := List.dropLast_concat_getLast hne
    have hj0 : s.emptySlots.getLast hne = j0 := by
      have := List.getLast?_eq_getLast s.emptySlots hne
      rw [hlast] at this
      injection this with h2
      exact h2.symm
    refine ⟨List.dropLast_subset _ hj, ?_⟩
    intro hh
    subst hh
    have hnd2 := hnd
    rw [← hdecomp] at hnd2
    have hdisj := List.disjoint_of_nodup_append hnd2
    exact hdisj hj (by rw [hj0]; exact List.mem_singleton_self _)

theorem popEmptySlot_nodup {s : Shard} (hnd : s.emptySlots.Nodup) :
    (popEmptySlot s).Nodup := by
  unfold popEmptySlot
  cases s.emptySlots.getLast? with
  | none => exact hnd
  | some j => exact (List.dropLast_sublist _).nodup hnd

/-- `createEntry` (the create path of `findOrCreate`, including the
initialization tail) restores the invariant from `Inv3Pre`. -/
theorem ShardInv_createEntry {s : Shard} {k : RawKey} {size : Nat}
    {allocOk : Bool}
    (hPre : Inv3Pre s.entries s.entryMap s.emptySlots k) :
    ShardInv (createEntry s k size allocOk).1 := by
  have hes : ∀ j ∈ s.emptySlots, s.entries[j]? = some none :=
    hPre.2.2.2.2.1
  have hnd : s.emptySlots.Nodup := hPre.2.2.2.2.2
  unfold createEntry
  have hself : ∀ newE : Entry,
      (insertAtSlot s (some newE))[newSlotIndex s]? = some (some newE) :=
    fun newE => insertAtSlot_self hes
  have hbase : ∀ (newE : Entry) (fr2 : List Entry) (st2 : ShardStats),
      ShardInv (modifySlot
        { s with
            entries := insertAtSlot s (some newE)
            entryMap := mapInsert s.entryMap k (newSlotIndex s)
            emptySlots := popEmptySlot s
            freeEntries := fr2
            stats := st2 }
        (newSlotIndex s)
        (fun e => { e with hasSsdFile := false, key := some k })) := by
    intro newE fr2 st2
    rw [modifySlot_eq (hself newE)]
    show Inv3 ((insertAtSlot s (some newE)).set (newSlotIndex s) _)
      (mapInsert s.entryMap k (newSlotIndex s)) (popEmptySlot s)
    refine Inv3_insert hPre
      (List.getElem?_set_self (slot_lt (hself newE))) rfl ?_
      (newSlot_old hes) ?_ (popEmptySlot_nodup hnd)
    · intro j hj
      rw [List.getElem?_set_ne (fun hh => hj hh.symm)]
      exact insertAtSlot_ne hj
    · exact fun j hj => popEmptySlot_mem hnd hj
  by_cases hsz : size < kTinyDataSize
  · simp only [hsz, if_true, ite_true]
    exact ShardInv_modifySlot (hbase _ _ _) (fun e => rfl)
  · by_cases halloc : allocOk
    · simp only [hsz, halloc, if_false, if_true, ite_true, ite_false]
      exact ShardInv_modifySlot
        (ShardInv_modifySlot (hbase _ _ _) (fun e => rfl)) (fun e => rfl)
    · simp only [hsz, halloc, if_false, ite_false]
      exact ShardInv_release
        (ShardInv_modifySlot (hbase _ _ _) (fun e => rfl))

/-- `Pre_of_supersede`, phrased on `modifySlot` for direct use in
`findOrCreate`. -/
theorem Pre_of_supersede_modify {s : Shard} {i : Nat} {old : Entry}
    {k : RawKey} (hInv : ShardInv s)
    (hslot : s.entries[i]? = some (some old)) (hk : old.key = some k) :
    Inv3Pre (modifySlot s i (fun e => { e with key := none })).entries
      (modifySlot s i (fun e => { e with key := none })).entryMap
      (modifySlot s i (fun e => { e with key := none })).emptySlots k := by
  rw [modifySlot_eq hslot]
  exact Pre_of_supersede hInv hslot hk

/-- `findOrCreate` preserves the invariant on every path. -/
theorem ShardInv_findOrCreate {s : Shard} {k : RawKey} {size : Nat}
    {wait allocOk : Bool} {now : Nat} (hInv : ShardInv s) :
    ShardInv (findOrCreate s k size wait allocOk now).1 := by
  unfold findOrCreate
  dsimp only
  cases hl : mapLookup s.entryMap k with
  | none => exact ShardInv_createEntry (Pre_of_miss hInv hl)
  | some i =>
    have hbind : (k, i) ∈ s.entryMap := mapLookup_mem hl
    obtain ⟨found0, hslot0, hkey0⟩ := hInv.1 (k, i) hbind
    dsimp only
    cases hslot : s.entries[i]? with
    | none =>
      rw [hslot0] at hslot
      cases hslot
    | some slot =>
      cases slot with
      | none =>
        rw [hslot0] at hslot
        injection hslot with h2
        cases h2
      | some found =>
        have hfound : found = found0 := by
          rw [hslot0] at hslot
          injection hslot with h2
          injection h2 with h3
          exact h3.symm
        subst hfound
        dsimp only
        by_cases hex : found.isExclusive = true
        · rw [if_pos hex]
          by_cases hwait : wait = true
          · rw [if_pos hwait]
            exact ShardInv_modifySlot hInv (fun e => rfl)
          · rw [if_neg hwait]
            exact hInv
        · rw [if_neg hex]
          by_cases hsz : size ≤ found.size
          · rw [if_pos hsz]
            by_cases hpf : found.isPrefetch = true
            · rw [if_pos hpf]
              exact ShardInv_modifySlot hInv (fun e => rfl)
            · rw [if_neg hpf]
              exact ShardInv_modifySlot hInv (fun e => rfl)
          · rw [if_neg hsz]
            exact ShardInv_createEntry
              (Pre_of_supersede_modify hInv hslot hkey0)

/-! ## Eviction lemmas -/

theorem removeEntryLocked_slot_self {s : Shard} {i : Nat} {e : Entry}
    (h : s.entries[i]? = some (some e)) :
    ∃ e2 : Entry, (removeEntryLocked s i).entries[i]? = some (some e2) ∧
      e2.key = none ∧ e2.tinySize = e.tinySize := by
  unfold removeEntryLocked
  rw [h]
  dsimp only
  cases hk : e.key with
  | none => exact ⟨e, h, hk, rfl⟩
  | some k =>
    refine ⟨{ e with
        key := none
        hasSsdFile := false
        isPrefetch := false
        dataPages := 0
        dataBytes := 0 }, ?_, rfl, rfl⟩
    exact List.getElem?_set_self (slot_lt h)

theorem removeEntryLocked_get_ne {s : Shard} {i j : Nat} (hne : j ≠ i) :
    (removeEntryLocked s i).entries[j]? = s.entries[j]? := by
  unfold removeEntryLocked
  split
  case h_2 => rfl
  case h_1 e hslot =>
    split
    case h_1 => rfl
    case h_2 k hk =>
      exact List.getElem?_set_ne (fun hh => hne hh.symm)

theorem removeEntryLocked_emptySlots (s : Shard) (i : Nat) :
    (removeEntryLocked s i).emptySlots = s.emptySlots := by
  unfold removeEntryLocked
  split
  case h_2 => rfl
  case h_1 e hslot =>
    split
    case h_1 => rfl
    case h_2 k hk => rfl

theorem removeEntryLocked_lookup {s : Shard} {i : Nat} {k : RawKey}
    (hother : ∀ (e : Entry), s.entries[i]? = some (some e) →
      ∀ kc, e.key = some kc → kc ≠ k) :
    mapLookup (removeEntryLocked s i).entryMap k =
      mapLookup s.entryMap k := by
  unfold removeEntryLocked
  split
  case h_2 => rfl
  case h_1 e hslot =>
    split
    case h_1 => rfl
    case h_2 kc hk =>
      exact mapLookup_mapErase_ne (Ne.symm (hother e hslot kc hk)) _

/-- The components of `evictSlot` in terms of the post-removal state. -/
theorem evictSlot_components {s : Shard} {idx : Nat} {c : Entry}
    (hc : s.entries[idx]? = some (some c)) :
    (evictSlot s idx c).entries =
      (removeEntryLocked
        (setSlot s idx (some { c with dataPages := 0, dataBytes := 0 }))
        idx).entries.set idx none ∧
    (evictSlot s idx c).entryMap =
      (removeEntryLocked
        (setSlot s idx (some { c with dataPages := 0, dataBytes := 0 }))
        idx).entryMap ∧
    (evictSlot s idx c).emptySlots =
      (removeEntryLocked
        (setSlot s idx (some { c with dataPages := 0, dataBytes := 0 }))
        idx).emptySlots ++ [idx] := by
  have hc3 : (setSlot s idx
      (some { c with dataPages := 0, dataBytes := 0 })).entries[idx]? =
      some (some { c with dataPages := 0, dataBytes := 0 }) := by
    show (s.entries.set idx _)[idx]? = _
    exact List.getElem?_set_self (slot_lt hc)
  obtain ⟨e2, he2, hk2, ht2⟩ := removeEntryLocked_slot_self hc3
  unfold evictSlot
  dsimp only
  rw [he2]
  exact ⟨rfl, rfl, rfl⟩

/-- Evicting an unpinned candidate preserves the invariant. -/
theorem ShardInv_evictSlot {s : Shard} {idx : Nat} {c : Entry}
    (hInv : ShardInv s) (hc : s.entries[idx]? = some (some c)) :
    ShardInv (evictSlot s idx c) := by
  obtain ⟨hent, hmap, hes⟩ := evictSlot_components hc
  have hc3 : (setSlot s idx
      (some { c with dataPages := 0, dataBytes := 0 })).entries[idx]? =
      some (some { c with dataPages := 0, dataBytes := 0 }) := by
    show (s.entries.set idx _)[idx]? = _
    exact List.getElem?_set_self (slot_lt hc)
  have hInv3 : ShardInv (setSlot s idx
      (some { c with dataPages := 0, dataBytes := 0 })) :=
    Inv3_set_keyEq hInv hc rfl
  have hInv4 := ShardInv_removeEntryLocked (i := idx) hInv3
  obtain ⟨e2, he2, hk2, ht2⟩ := removeEntryLocked_slot_self hc3
  have hvac := Inv3_vacate hInv4 he2 hk2
  unfold ShardInv
  rw [hent, hmap, hes]
  exact hvac

/-- Slots other than the evicted one are untouched by `evictSlot`. -/
theorem evictSlot_get_ne {s : Shard} {idx : Nat} {c : Entry} {j : Nat}
    (hne : j ≠ idx) (hc : s.entries[idx]? = some (some c)) :
    (evictSlot s idx c).entries[j]? = s.entries[j]? := by
  obtain ⟨hent, _, _⟩ := evictSlot_components hc
  rw [hent, List.getElem?_set_ne (fun hh => hne hh.symm),
    removeEntryLocked_get_ne hne]
  show (s.entries.set idx _)[j]? = _
  rw [List.getElem?_set_ne (fun hh => hne hh.symm)]

/-- Bindings of other keys survive `evictSlot`. -/
theorem evictSlot_lookup {s : Shard} {idx : Nat} {c : Entry} {k : RawKey}
    {i : Nat} (hInv : ShardInv s) (hc : s.entries[idx]? = some (some c))
    (hEntry : (k, i) ∈ s.entryMap) (hne : i ≠ idx) :
    mapLookup (evictSlot s idx c).entryMap k =
      mapLookup s.entryMap k := by
  obtain ⟨_, hmap, _⟩ := evictSlot_components hc
  rw [hmap]
  have hInv3 : ShardInv (setSlot s idx
      (some { c with dataPages := 0, dataBytes := 0 })) :=
    Inv3_set_keyEq hInv hc rfl
  have hmapeq : (setSlot s idx
      (some { c with dataPages := 0, dataBytes := 0 })).entryMap =
      s.entryMap := rfl
  rw [removeEntryLocked_lookup]
  · exact rfl
  · intro e hslot kc hk hkk
    subst hkk
    have hc3 : (setSlot s idx
        (some { c with dataPages := 0, dataBytes := 0 })).entries[idx]? =
        some (some { c with dataPages := 0, dataBytes := 0 }) := by
      show (s.entries.set idx _)[idx]? = _
      exact List.getElem?_set_self (slot_lt hc)
    rw [hc3] at hslot
    injection hslot with h2
    injection h2 with h3
    have hbindc : (kc, idx) ∈ s.entryMap := by
      have := hInv.2.1 idx c hc kc (by rw [← h3] at hk; exact hk)
      exact this
    exact hne (keys_unique hInv.2.2.1 hEntry hbindc)

theorem calibratePass_entries (env : EvictEnv) (n : Nat) (s : Shard) :
    (calibratePass env n s).1.entries = s.entries := by
  unfold calibratePass
  split <;> rfl

theorem calibratePass_entryMap (env : EvictEnv) (n : Nat) (s : Shard) :
    (calibratePass env n s).1.entryMap = s.entryMap := by
  unfold calibratePass
  split <;> rfl

theorem calibratePass_emptySlots (env : EvictEnv) (n : Nat) (s : Shard) :
    (calibratePass env n s).1.emptySlots = s.emptySlots := by
  unfold calibratePass
  split <;> rfl

theorem acquireOrBatch_saveableSkipped (st : EvictState) (c : Entry) :
    (acquireOrBatch st c).saveableSkipped = st.saveableSkipped := by
  unfold acquireOrBatch
  split <;> rfl

/-- Case analysis of the post-calibration loop body: (A) nothing was
evicted and the candidate state `s2` is returned untouched; (B) the
candidate was skipped under the SSD bypass rule; (C) the unpinned
candidate was evicted, the shard changing exactly as `evictSlot`
describes. -/
theorem evictStepBody_cases (env : EvictEnv) (skipSsd : Bool) (idx : Nat)
    (st : EvictState) (c : Entry) (s2 : Shard) (numChecked : Nat) :
    ((evictStepBody env skipSsd idx st c s2 numChecked).1.shard = s2 ∧
     (evictStepBody env skipSsd idx st c s2 numChecked).1.saveableSkipped
        = st.saveableSkipped ∧
     (evictStepBody env skipSsd idx st c s2 numChecked).2 = false) ∨
    ((evictStepBody env skipSsd idx st c s2 numChecked).1.shard = s2 ∧
     (evictStepBody env skipSsd idx st c s2 numChecked).1.saveableSkipped
        = st.saveableSkipped + 1 ∧
     (evictStepBody env skipSsd idx st c s2 numChecked).2 = false ∧
     c.numPins = 0 ∧ skipSsd = true ∧ c.ssdSaveable = true ∧
     ¬ env.evictAllUnpinned = true) ∨
    (c.numPins = 0 ∧
     ¬ (skipSsd = true ∧ c.ssdSaveable = true ∧
         ¬ env.evictAllUnpinned = true) ∧
     (evictStepBody env skipSsd idx st c s2 numChecked).1.shard.entries
        = (evictSlot s2 idx c).entries ∧
     (evictStepBody env skipSsd idx st c s2 numChecked).1.shard.entryMap
        = (evictSlot s2 idx c).entryMap ∧
     (evictStepBody env skipSsd idx st c s2 numChecked).1.shard.emptySlots
        = (evictSlot s2 idx c).emptySlots ∧
     (evictStepBody env skipSsd idx st c s2 numChecked).1.saveableSkipped
        = st.saveableSkipped) := by
  unfold evictStepBody
  dsimp only
  by_cases hcond : c.numPins = 0 ∧
      (c.key = none ∨ env.evictAllUnpinned = true ∨
        s2.evictionThreshold ≤
          (if c.key = none ∨ env.evictAllUnpinned = true then (0 : Int)
           else env.score c))
  · rw [if_pos hcond]
    by_cases hskip : skipSsd = true ∧ c.ssdSaveable = true ∧
        ¬ env.evictAllUnpinned = true
    · rw [if_pos hskip]
      exact Or.inr (Or.inl ⟨rfl, rfl, rfl, hcond.1, hskip.1, hskip.2.1,
        hskip.2.2⟩)
    · rw [if_neg hskip]
      refine Or.inr (Or.inr ⟨hcond.1, hskip, rfl, rfl, rfl, ?_⟩)
      exact acquireOrBatch_saveableSkipped _ _
  · rw [if_neg hcond]
    exact Or.inl ⟨rfl, rfl, rfl⟩

/-- Case analysis of one eviction-loop iteration: (A) nothing was evicted
and the slots, map, empty-slot records and skip counter are untouched;
(B) the candidate was skipped under the SSD bypass rule; (C) the unpinned
candidate was evicted, the shard changing exactly as `evictSlot`
describes. -/
theorem evictStep_cases (env : EvictEnv) (skipSsd : Bool) (idx : Nat)
    (st : EvictState) :
    ((evictStep env skipSsd idx st).1.shard.entries = st.shard.entries ∧
     (evictStep env skipSsd idx st).1.shard.entryMap = st.shard.entryMap ∧
     (evictStep env skipSsd idx st).1.shard.emptySlots
        = st.shard.emptySlots ∧
     (evictStep env skipSsd idx st).1.saveableSkipped
        = st.saveableSkipped ∧
     (evictStep env skipSsd idx st).2 = false) ∨
    ((evictStep env skipSsd idx st).1.shard.entries = st.shard.entries ∧
     (evictStep env skipSsd idx st).1.shard.entryMap = st.shard.entryMap ∧
     (evictStep env skipSsd idx st).1.shard.emptySlots
        = st.shard.emptySlots ∧
     (evictStep env skipSsd idx st).1.saveableSkipped
        = st.saveableSkipped + 1 ∧
     (evictStep env skipSsd idx st).2 = false ∧
     ∃ c : Entry, st.shard.entries[idx]? = some (some c) ∧
       c.numPins = 0 ∧ skipSsd = true ∧ c.ssdSaveable = true ∧
       ¬ env.evictAllUnpinned = true) ∨
    (∃ c : Entry, st.shard.entries[idx]? = some (some c) ∧
      c.numPins = 0 ∧
      ¬ (skipSsd = true ∧ c.ssdSaveable = true ∧
          ¬ env.evictAllUnpinned = true) ∧
      ∃ sMid : Shard,
        (evictStep env skipSsd idx st).1.shard.entries
            = (evictSlot sMid idx c).entries ∧
        (evictStep env skipSsd idx st).1.shard.entryMap
            = (evictSlot sMid idx c).entryMap ∧
        (evictStep env skipSsd idx st).1.shard.emptySlots
            = (evictSlot sMid idx c).emptySlots ∧
        sMid.entries = st.shard.entries ∧
        sMid.entryMap = st.shard.entryMap ∧
        sMid.emptySlots = st.shard.emptySlots ∧
        (evictStep env skipSsd idx st).1.saveableSkipped
            = st.saveableSkipped) := by
  unfold evictStep
  dsimp only
  cases hc : st.shard.entries[idx]? with
  | none => exact Or.inl ⟨rfl, rfl, rfl, rfl, rfl⟩
  | some slot =>
    cases slot with
    | none => exact Or.inl ⟨rfl, rfl, rfl, rfl, rfl⟩
    | some c =>
      dsimp only
      rcases evictStepBody_cases env skipSsd idx st c
          (calibratePass env (st.numChecked + 1)
            { st.shard with
                clockHand := st.shard.clockHand + 1
                stats := { st.shard.stats with
                  numEvictChecks := st.shard.stats.numEvictChecks + 1 } }).1
          (calibratePass env (st.numChecked + 1)
            { st.shard with
                clockHand := st.shard.clockHand + 1
                stats := { st.shard.stats with
                  numEvictChecks := st.shard.stats.numEvictChecks + 1 } }).2
        with hA | hB | hC
      · refine Or.inl ⟨?_, ?_, ?_, hA.2.1, hA.2.2⟩
        · rw [hA.1]
          exact calibratePass_entries env _ _
        · rw [hA.1]
          exact calibratePass_entryMap env _ _
        · rw [hA.1]
          exact calibratePass_emptySlots env _ _
      · refine Or.inr (Or.inl ⟨?_, ?_, ?_, hB.2.1, hB.2.2.1,
          c, rfl, hB.2.2.2⟩)
        · rw [hB.1]
          exact calibratePass_entries env _ _
        · rw [hB.1]
          exact calibratePass_entryMap env _ _
        · rw [hB.1]
          exact calibratePass_emptySlots env _ _
      · refine Or.inr (Or.inr ⟨c, rfl, hC.1, hC.2.1, _,
          hC.2.2.1, hC.2.2.2.1, hC.2.2.2.2.1, ?_, ?_, ?_,
          hC.2.2.2.2.2⟩)
        · exact calibratePass_entries env _ _
        · exact calibratePass_entryMap env _ _
        · exact calibratePass_emptySlots env _ _

theorem ShardInv_evictStep {env : EvictEnv} {skipSsd : Bool} {idx : Nat}
    {st : EvictState} (hInv : ShardInv st.shard) :
    ShardInv (evictStep env skipSsd idx st).1.shard := by
  rcases evictStep_cases env skipSsd idx st with hA | hB | hC
  · unfold ShardInv
    rw [hA.1, hA.2.1, hA.2.2.1]
    exact hInv
  · unfold ShardInv
    rw [hB.1, hB.2.1, hB.2.2.1]
    exact hInv
  · obtain ⟨c, hc, _, _, sMid, hent, hmap, hes, hm1, hm2, hm3, _⟩ := hC
    have hMidInv : ShardInv sMid := by
      unfold ShardInv
      rw [hm1, hm2, hm3]
      exact hInv
    have hcMid : sMid.entries[idx]? = some (some c) := by
      rw [hm1]
      exact hc
    have hres := ShardInv_evictSlot hMidInv hcMid
    unfold ShardInv at hres ⊢
    rw [hent, hmap, hes]
    exact hres

theorem ShardInv_evictLoop (env : EvictEnv) (skipSsd : Bool) (size : Nat) :
    ∀ (fuel entryIndex : Nat) (st : EvictState), ShardInv st.shard →
      ShardInv (evictLoop env skipSsd size fuel entryIndex st).shard := by
  intro fuel
  induction fuel with
  | zero => exact fun _ st h => h
  | succ n ih =>
    intro entryIndex st h
    unfold evictLoop
    dsimp only
    by_cases hstop : (evictStep env skipSsd
        (if entryIndex + 1 = size then 0 else entryIndex + 1) st).2 = true
    · rw [if_pos hstop]
      exact ShardInv_evictStep h
    · rw [if_neg hstop]
      exact ih _ _ (ShardInv_evictStep h)

/-- `evict` preserves the invariant. -/
theorem ShardInv_evict {s : Shard} {env : EvictEnv} {pta : Nat}
    (hInv : ShardInv s) : ShardInv (evict s env pta).shard := by
  unfold evict
  dsimp only
  by_cases hsz : s.entries.length = 0
  · rw [if_pos hsz]
    exact hInv
  · rw [if_neg hsz]
    exact ShardInv_evictLoop _ _ _ _ _ _ hInv

theorem removeEntryLocked_mem {s : Shard} {i : Nat} {k : RawKey} {j : Nat}
    (hother : ∀ e : Entry, s.entries[i]? = some (some e) →
      ∀ kc, e.key = some kc → kc ≠ k)
    (hmem : (k, j) ∈ s.entryMap) :
    (k, j) ∈ (removeEntryLocked s i).entryMap := by
  unfold removeEntryLocked
  split
  case h_2 => exact hmem
  case h_1 e hslot =>
    split
    case h_1 => exact hmem
    case h_2 kc hk =>
      exact mem_mapErase.mpr ⟨hmem, Ne.symm (hother e hslot kc hk)⟩

/-- Bindings of pinned (hence non-evicted) entries survive `evictSlot`. -/
theorem evictSlot_mem {s : Shard} {idx : Nat} {c : Entry} {k : RawKey}
    {i : Nat} (hInv : ShardInv s) (hc : s.entries[idx]? = some (some c))
    (hmem : (k, i) ∈ s.entryMap) (hne : i ≠ idx) :
    (k, i) ∈ (evictSlot s idx c).entryMap := by
  obtain ⟨_, hmap, _⟩ := evictSlot_components hc
  rw [hmap]
  refine removeEntryLocked_mem ?_ hmem
  intro e hslot kc hk hkk
  subst hkk
  have hc3 : (setSlot s idx
      (some { c with dataPages := 0, dataBytes := 0 })).entries[idx]? =
      some (some { c with dataPages := 0, dataBytes := 0 }) := by
    show (s.entries.set idx _)[idx]? = _
    exact List.getElem?_set_self (slot_lt hc)
  rw [hc3] at hslot
  injection hslot with h2
  injection h2 with h3
  have hbindc : (kc, idx) ∈ s.entryMap :=
    hInv.2.1 idx c hc kc (by rw [← h3] at hk; exact hk)
  exact hne (keys_unique hInv.2.2.1 hmem hbindc)

/-- A pinned entry's slot and map binding survive one loop iteration. -/
theorem evictStep_pinned {env : EvictEnv} {skipSsd : Bool} {idx : Nat}
    {st : EvictState} {i : Nat} {e : Entry} {k : RawKey}
    (hInv : ShardInv st.shard)
    (hslot : st.shard.entries[i]? = some (some e))
    (hpins : e.numPins ≠ 0) (hmem : (k, i) ∈ st.shard.entryMap) :
    (evictStep env skipSsd idx st).1.shard.entries[i]? = some (some e) ∧
    (k, i) ∈ (evictStep env skipSsd idx st).1.shard.entryMap := by
  rcases evictStep_cases env skipSsd idx st with hA | hB | hC
  · rw [hA.1, hA.2.1]
    exact ⟨hslot, hmem⟩
  · rw [hB.1, hB.2.1]
    exact ⟨hslot, hmem⟩
  · obtain ⟨c, hc, hcpins, _, sMid, hent, hmap, hes, hm1, hm2, hm3, _⟩ := hC
    have hne : i ≠ idx := by
      intro hh
      subst hh
      rw [hslot] at hc
      injection hc with h2
      injection h2 with h3
      rw [← h3] at hcpins
      exact hpins hcpins
    have hMidInv : ShardInv sMid := by
      unfold ShardInv
      rw [hm1, hm2, hm3]
      exact hInv
    have hcMid : sMid.entries[idx]? = some (some c) := by
      rw [hm1]
      exact hc
    constructor
    · rw [hent, evictSlot_get_ne hne hcMid, hm1]
      exact hslot
    · rw [hmap]
      exact evictSlot_mem hMidInv hcMid (by rw [hm2]; exact hmem) hne

theorem evictLoop_pinned (env : EvictEnv) (skipSsd : Bool) (size : Nat) :
    ∀ (fuel entryIndex : Nat) (st : EvictState) (i : Nat) (e : Entry)
      (k : RawKey), ShardInv st.shard →
      st.shard.entries[i]? = some (some e) → e.numPins ≠ 0 →
      (k, i) ∈ st.shard.entryMap →
      (evictLoop env skipSsd size fuel entryIndex st).shard.entries[i]?
          = some (some e) ∧
      (k, i) ∈ (evictLoop env skipSsd size fuel entryIndex st).shard.entryMap
    := by
  intro fuel
  induction fuel with
  | zero => exact fun _ st i e k _ h1 _ h3 => ⟨h1, h3⟩
  | succ n ih =>
    intro entryIndex st i e k hInv h1 h2 h3
    unfold evictLoop
    dsimp only
    obtain ⟨h4, h5⟩ := @evictStep_pinned env skipSsd
      (if entryIndex + 1 = size then 0 else entryIndex + 1) st i e k
      hInv h1 h2 h3
    by_cases hstop : (evictStep env skipSsd
        (if entryIndex + 1 = size then 0 else entryIndex + 1) st).2 = true
    · rw [if_pos hstop]
      exact ⟨h4, h5⟩
    · rw [if_neg hstop]
      exact ih _ _ i e k (ShardInv_evictStep hInv) h4 h2 h5

/-- A saveable unpinned entry's slot survives one loop iteration when an
SSD write is in progress and the pass is not desperate. -/
theorem evictStep_saveable {env : EvictEnv} {skipSsd : Bool} {idx : Nat}
    {st : EvictState} {i : Nat} {e : Entry} (hskip : skipSsd = true)
    (hall : env.evictAllUnpinned = false)
    (hslot : st.shard.entries[i]? = some (some e))
    (hsv : e.ssdSaveable = true) :
    (evictStep env skipSsd idx st).1.shard.entries[i]? = some (some e) := by
  rcases evictStep_cases env skipSsd idx st with hA | hB | hC
  · rw [hA.1]
    exact hslot
  · rw [hB.1]
    exact hslot
  · obtain ⟨c, hc, hcpins, hnskip, sMid, hent, _, _, hm1, _, _, _⟩ := hC
    have hne : i ≠ idx := by
      intro hh
      subst hh
      rw [hslot] at hc
      injection hc with h2
      injection h2 with h3
      subst h3
      exact hnskip ⟨hskip, hsv, by rw [hall]; simp⟩
    have hcMid : sMid.entries[idx]? = some (some c) := by
      rw [hm1]
      exact hc
    rw [hent, evictSlot_get_ne hne hcMid, hm1]
    exact hslot

theorem evictLoop_saveable (env : EvictEnv) (skipSsd : Bool) (size : Nat)
    (hskip : skipSsd = true) (hall : env.evictAllUnpinned = false) :
    ∀ (fuel entryIndex : Nat) (st : EvictState) (i : Nat) (e : Entry),
      st.shard.entries[i]? = some (some e) → e.ssdSaveable = true →
      (evictLoop env skipSsd size fuel entryIndex st).shard.entries[i]?
          = some (some e) := by
  intro fuel
  induction fuel with
  | zero => exact fun _ st i e h1 _ => h1
  | succ n ih =>
    intro entryIndex st i e h1 h2
    unfold evictLoop
    dsimp only
    have h4 := @evictStep_saveable env skipSsd
      (if entryIndex + 1 = size then 0 else entryIndex + 1) st i e
      hskip hall h1 h2
    by_cases hstop : (evictStep env skipSsd
        (if entryIndex + 1 = size then 0 else entryIndex + 1) st).2 = true
    · rw [if_pos hstop]
      exact h4
    · rw [if_neg hstop]
      exact ih _ _ i e h4 h2

theorem removeEntryLocked_threshold (s : Shard) (i : Nat) :
    (removeEntryLocked s i).evictionThreshold = s.evictionThreshold := by
  unfold removeEntryLocked
  split
  case h_2 => rfl
  case h_1 e hslot =>
    split
    case h_1 => rfl
    case h_2 k hk => rfl

theorem evictSlot_threshold (s : Shard) (idx : Nat) (c : Entry) :
    (evictSlot s idx c).evictionThreshold = s.evictionThreshold := by
  unfold evictSlot
  dsimp only
  split
  · show (removeEntryLocked (setSlot s idx _) idx).evictionThreshold = _
    rw [removeEntryLocked_threshold]
    rfl
  · show (removeEntryLocked (setSlot s idx _) idx).evictionThreshold = _
    rw [removeEntryLocked_threshold]
    rfl

theorem evictStepBody_threshold (env : EvictEnv) (skipSsd : Bool)
    (idx : Nat) (st : EvictState) (c : Entry) (s2 : Shard)
    (numChecked : Nat) :
    (evictStepBody env skipSsd idx st c s2 numChecked).1.shard.evictionThreshold
      = s2.evictionThreshold := by
  unfold evictStepBody
  dsimp only
  repeat' split
  all_goals first
    | rfl
    | (show (evictSlot s2 idx c).evictionThreshold = _
       exact evictSlot_threshold s2 idx c)

theorem evictStep_eq_body {env : EvictEnv} {skipSsd : Bool} {idx : Nat}
    {st : EvictState} {c : Entry}
    (hc : st.shard.entries[idx]? = some (some c)) :
    evictStep env skipSsd idx st =
      evictStepBody env skipSsd idx st c
        (calibratePass env (st.numChecked + 1)
          { st.shard with
              clockHand := st.shard.clockHand + 1
              stats := { st.shard.stats with
                numEvictChecks := st.shard.stats.numEvictChecks + 1 } }).1
        (calibratePass env (st.numChecked + 1)
          { st.shard with
              clockHand := st.shard.clockHand + 1
              stats := { st.shard.stats with
                numEvictChecks := st.shard.stats.numEvictChecks + 1 } }).2
    := by
  unfold evictStep
  dsimp only
  rw [hc]

/-- The SSD bypass rule at one iteration: an unpinned, saveable,
otherwise-evictable candidate is left in place and the skip counter
grows by one, provided an SSD write is in progress and the pass is not
desperate. -/
theorem evictStep_skip {env : EvictEnv} {skipSsd : Bool} {idx : Nat}
    {st : EvictState} {c : Entry}
    (hc : st.shard.entries[idx]? = some (some c)) (hpins : c.numPins = 0)
    (hsv : c.ssdSaveable = true) (hskip : skipSsd = true)
    (hall : env.evictAllUnpinned = false)
    (hev : c.key = none ∨
      (evictStep env skipSsd idx st).1.shard.evictionThreshold ≤
        env.score c) :
    (evictStep env skipSsd idx st).1.shard.entries = st.shard.entries ∧
    (evictStep env skipSsd idx st).1.saveableSkipped
        = st.saveableSkipped + 1 ∧
    (evictStep env skipSsd idx st).2 = false := by
  rw [evictStep_eq_body hc] at hev ⊢
  rw [evictStepBody_threshold] at hev
  have hnotall : ¬ env.evictAllUnpinned = true := by
    rw [hall]
    simp
  set s2 : Shard := (calibratePass env (st.numChecked + 1)
    { st.shard with
        clockHand := st.shard.clockHand + 1
        stats := { st.shard.stats with
          numEvictChecks := st.shard.stats.numEvictChecks + 1 } }).1
    with hs2
  have hcond : c.numPins = 0 ∧ (c.key = none ∨
      env.evictAllUnpinned = true ∨
      s2.evictionThreshold ≤
        (if c.key = none ∨ env.evictAllUnpinned = true then (0 : Int)
         else env.score c)) := by
    refine ⟨hpins, ?_⟩
    rcases hev with h | h
    · exact Or.inl h
    · by_cases hkey : c.key = none
      · exact Or.inl hkey
      · refine Or.inr (Or.inr ?_)
        rw [if_neg]
        · exact h
        · rintro (h1 | h1)
          · exact hkey h1
          · rw [hall] at h1
            cases h1
  unfold evictStepBody
  dsimp only
  rw [if_pos hcond, if_pos ⟨hskip, hsv, hnotall⟩]
  exact ⟨calibratePass_entries env _ _, rfl, rfl⟩

/-! ## `appendSsdSaveable` and `exists` lemmas -/

/-- The loop of `appendSsdSaveable` keeps every slot's shape and key,
bumping pin counts only. -/
theorem appendLoop_slots (limit : Nat) (entries : List (Option Entry)) :
    ∀ pins : List Entry,
      (appendSsdSaveableLoop limit entries pins).1.length
          = entries.length ∧
      ∀ i : Nat,
        (appendSsdSaveableLoop limit entries pins).1[i]? = entries[i]? ∨
        ∃ e : Entry, entries[i]? = some (some e) ∧
          (appendSsdSaveableLoop limit entries pins).1[i]? =
            some (some { e with numPins := e.numPins + 1 }) := by
  induction entries with
  | nil =>
    intro pins
    exact ⟨rfl, fun i => Or.inl rfl⟩
  | cons slot rest ih =>
    intro pins
    cases slot with
    | none =>
      unfold appendSsdSaveableLoop
      dsimp only
      refine ⟨by simp [(ih pins).1], ?_⟩
      intro i
      cases i with
      | zero => exact Or.inl (by simp)
      | succ j =>
        rcases (ih pins).2 j with h | ⟨e, he, he2⟩
        · exact Or.inl (by simpa using h)
        · exact Or.inr ⟨e, by simpa using he, by simpa using he2⟩
    | some e0 =>
      unfold appendSsdSaveableLoop
      dsimp only
      by_cases helig : ssdSaveEligible (some e0) = true
      · rw [if_pos helig]
        by_cases hlim : (pins ++
            [{ e0 with numPins := e0.numPins + 1 }]).length ≥ limit
        · rw [if_pos hlim]
          refine ⟨rfl, ?_⟩
          intro i
          cases i with
          | zero => exact Or.inr ⟨e0, by simp, by simp⟩
          | succ j => exact Or.inl (by simp)
        · rw [if_neg hlim]
          refine ⟨by simp [(ih _).1], ?_⟩
          intro i
          cases i with
          | zero => exact Or.inr ⟨e0, by simp, by simp⟩
          | succ j =>
            rcases (ih (pins ++ [{ e0 with
                numPins := e0.numPins + 1 }])).2 j with h | ⟨e, he, he2⟩
            · exact Or.inl (by simpa using h)
            · exact Or.inr ⟨e, by simpa using he, by simpa using he2⟩
      · rw [if_neg helig]
        refine ⟨by simp [(ih pins).1], ?_⟩
        intro i
        cases i with
        | zero => exact Or.inl (by simp)
        | succ j =>
          rcases (ih pins).2 j with h | ⟨e, he, he2⟩
          · exact Or.inl (by simpa using h)
          · exact Or.inr ⟨e, by simpa using he, by simpa using he2⟩

/-- Pointwise pin bumps do not disturb the invariant. -/
theorem Inv3_congr_pins {entries entries2 : List (Option Entry)}
    {m : List (RawKey × Nat)} {es : List Nat}
    (hpt : ∀ i : Nat, entries2[i]? = entries[i]? ∨
      ∃ e : Entry, entries[i]? = some (some e) ∧
        entries2[i]? = some (some { e with numPins := e.numPins + 1 }))
    (hInv : Inv3 entries m es) : Inv3 entries2 m es := by
  obtain ⟨h1, h2, h3, h4, h5⟩ := hInv
  refine ⟨?_, ?_, h3, ?_, h5⟩
  · intro p hp
    obtain ⟨e, he, hek⟩ := h1 p hp
    rcases hpt p.2 with h | ⟨f, hf, hf2⟩
    · exact ⟨e, by rw [h]; exact he, hek⟩
    · rw [he] at hf
      injection hf with hi1
      injection hi1 with hi2
      exact ⟨{ f with numPins := f.numPins + 1 }, hf2, by
        rw [hi2] at hek
        exact hek⟩
  · intro j f hf k hk
    rcases hpt j with h | ⟨e, he, he2⟩
    · rw [h] at hf
      exact h2 j f hf k hk
    · rw [he2] at hf
      injection hf with hi1
      injection hi1 with hi2
      refine h2 j e he k ?_
      rw [← hi2] at hk
      exact hk
  · intro j hj
    have h := h4 j hj
    rcases hpt j with hh | ⟨e, he, he2⟩
    · rw [hh]
      exact h
    · rw [he] at h
      injection h with hi1
      cases hi1

/-- `appendSsdSaveable` (shard level) preserves the invariant. -/
theorem ShardInv_appendSsdSaveableShard {s : Shard} {pins : List Entry}
    (hInv : ShardInv s) : ShardInv (appendSsdSaveableShard s pins).1 := by
  unfold appendSsdSaveableShard appendSsdSaveable
  dsimp only
  exact Inv3_congr_pins
    (appendLoop_slots ((s.entries.length * 100) / 70) s.entries pins).2 hInv

/-- `exists` preserves the invariant (it only touches access stats). -/
theorem ShardInv_existsOp {s : Shard} {k : RawKey} {now : Nat}
    (hInv : ShardInv s) : ShardInv (existsOp s k now).1 := by
  unfold existsOp
  cases hl : mapLookup s.entryMap k with
  | none => exact hInv
  | some i =>
    dsimp only
    exact ShardInv_modifySlot hInv (fun e => rfl)

/-! ## Computation lemmas for `release`, `removeEntry` and `createEntry` -/

theorem modifySlot_get_ne {s : Shard} {i j : Nat} {f : Entry → Entry}
    (hne : j ≠ i) : (modifySlot s i f).entries[j]? = s.entries[j]? := by
  unfold modifySlot
  split
  case h_1 e h => exact List.getElem?_set_ne (fun hh => hne hh.symm)
  case h_2 => rfl

theorem removeEntry_get_ne {s : Shard} {i j : Nat} (hne : j ≠ i) :
    (removeEntry s i).1.entries[j]? = s.entries[j]? := by
  unfold removeEntry
  dsimp only
  split
  case h_1 e h =>
    show ((removeEntryLocked s i).entries.set i _)[j]? = _
    rw [List.getElem?_set_ne (fun hh => hne hh.symm),
      removeEntryLocked_get_ne hne]
  case h_2 => exact removeEntryLocked_get_ne hne

theorem release_get_ne {s : Shard} {i j : Nat} (hne : j ≠ i) :
    (release s i).1.entries[j]? = s.entries[j]? := by
  unfold release
  split
  case h_2 => rfl
  case h_1 e h =>
    by_cases h0 : e.numPins = 0
    · rw [if_pos h0]
    · rw [if_neg h0]
      by_cases hex : e.numPins = kExclusive
      · rw [if_pos hex]
        rcases hre : removeEntry s i with ⟨s2, b⟩
        dsimp only
        have hs2 : s2 = (removeEntry s i).1 := by
          rw [hre]
        rw [modifySlot_get_ne hne, hs2, removeEntry_get_ne hne]
      · rw [if_neg hex]
        by_cases h1 : 1 ≤ e.numPins
        · rw [if_pos h1]
          exact modifySlot_get_ne hne
        · rw [if_neg h1]

theorem removeEntryLocked_map_eq {s : Shard} {i : Nat} {e : Entry}
    {k : RawKey} (hslot : s.entries[i]? = some (some e))
    (hk : e.key = some k) :
    (removeEntryLocked s i).entryMap = mapErase s.entryMap k := by
  unfold removeEntryLocked
  rw [hslot]
  dsimp only
  rw [hk]

theorem removeEntryLocked_keyless {s : Shard} {i : Nat} {e : Entry}
    (hslot : s.entries[i]? = some (some e)) (hk : e.key = none) :
    removeEntryLocked s i = s := by
  unfold removeEntryLocked
  rw [hslot]
  dsimp only
  rw [hk]

theorem removeEntryLocked_slot_eq {s : Shard} {i : Nat} {e : Entry}
    {k : RawKey} (hslot : s.entries[i]? = some (some e))
    (hk : e.key = some k) :
    (removeEntryLocked s i).entries[i]? = some (some { e with
      key := none
      hasSsdFile := false
      isPrefetch := false
      dataPages := 0
      dataBytes := 0 }) := by
  unfold removeEntryLocked
  rw [hslot]
  dsimp only
  rw [hk]
  dsimp only
  exact List.getElem?_set_self (slot_lt hslot)

theorem mapLookup_mapInsert_self (m : List (RawKey × Nat)) (k : RawKey)
    (i : Nat) : mapLookup (mapInsert m k i) k = some i := by
  simp [mapInsert, mapLookup]

/-- `removeEntry` evaluated on an exclusive entry with a live key. -/
theorem removeEntry_eq {s : Shard} {i : Nat} {e : Entry} {k : RawKey}
    (hslot : s.entries[i]? = some (some e)) (hk : e.key = some k) :
    removeEntry s i =
      (setSlot (removeEntryLocked s i) i (some { e with
        key := none
        hasSsdFile := false
        isPrefetch := false
        dataPages := 0
        dataBytes := 0
        promise := false }), e.promise) := by
  have hrem := removeEntryLocked_slot_eq hslot hk
  unfold removeEntry
  dsimp only
  rw [hrem]

theorem modifySlot_entryMap (s : Shard) (i : Nat) (f : Entry → Entry) :
    (modifySlot s i f).entryMap = s.entryMap := by
  unfold modifySlot
  split <;> rfl

theorem removeEntryLocked_length (s : Shard) (i : Nat) :
    (removeEntryLocked s i).entries.length = s.entries.length := by
  unfold removeEntryLocked
  split
  case h_2 => rfl
  case h_1 e h =>
    split
    case h_1 => rfl
    case h_2 k hk => simp

/-- `release` evaluated on an exclusive entry with a live key: the entry is
removed from the map and the promise, if present, is realized with
`true`. -/
theorem release_exclusive_eq {s : Shard} {i : Nat} {e : Entry} {k : RawKey}
    (hslot : s.entries[i]? = some (some e)) (hexc : e.numPins = kExclusive)
    (hk : e.key = some k) :
    (release s i).2 = ReleaseResult.removedExclusive
        (if e.promise then some true else none) ∧
    mapLookup (release s i).1.entryMap k = none ∧
    (release s i).1.entries[i]? = some (some { e with
      key := none
      hasSsdFile := false
      isPrefetch := false
      dataPages := 0
      dataBytes := 0
      promise := false
      numPins := 0 }) := by
  have h0 : ¬ e.numPins = 0 := by
    rw [hexc]
    decide
  have hlen : i < (removeEntryLocked s i).entries.length := by
    rw [removeEntryLocked_length]
    exact slot_lt hslot
  have hslot2 : (setSlot (removeEntryLocked s i) i (some { e with
      key := none
      hasSsdFile := false
      isPrefetch := false
      dataPages := 0
      dataBytes := 0
      promise := false })).entries[i]? = some (some { e with
      key := none
      hasSsdFile := false
      isPrefetch := false
      dataPages := 0
      dataBytes := 0
      promise := false }) := by
    show ((removeEntryLocked s i).entries.set i _)[i]? = _
    exact List.getElem?_set_self hlen
  unfold release
  rw [hslot]
  dsimp only
  rw [if_neg h0, if_pos hexc, removeEntry_eq hslot hk]
  dsimp only
  rw [modifySlot_eq hslot2]
  refine ⟨rfl, ?_, ?_⟩
  · show mapLookup (removeEntryLocked s i).entryMap k = none
    rw [removeEntryLocked_map_eq hslot hk]
    exact mapLookup_mapErase_self _ _
  · show ((removeEntryLocked s i).entries.set i _ |>.set i _)[i]? = _
    rw [List.set_set]
    exact List.getElem?_set_self hlen

/-- `release` evaluated on a shared entry: the pin count decrements. -/
theorem release_decrement_eq {s : Shard} {i : Nat} {e : Entry}
    (hslot : s.entries[i]? = some (some e)) (h1 : 1 ≤ e.numPins) :
    (release s i).2 = ReleaseResult.decremented ∧
    (release s i).1.entries[i]?
        = some (some { e with numPins := e.numPins - 1 }) := by
  have h0 : ¬ e.numPins = 0 := by
    intro hh
    rw [hh] at h1
    omega
  have hexc : ¬ e.numPins = kExclusive := by
    intro hh
    rw [hh] at h1
    have hkx : kExclusive = -10000 := rfl
    omega
  unfold release
  rw [hslot]
  dsimp only
  rw [if_neg h0, if_neg hexc, if_pos h1, modifySlot_eq hslot]
  exact ⟨rfl, List.getElem?_set_self (slot_lt hslot)⟩

/-- `release` evaluated on an unpinned, non-exclusive entry: a fatal
`VELOX_CHECK`. -/
theorem release_fatal_eq {s : Shard} {i : Nat} {e : Entry}
    (hslot : s.entries[i]? = some (some e)) (hlow : e.numPins < 1)
    (hexc : ¬ e.numPins = kExclusive) :
    (release s i).2 = ReleaseResult.fatal := by
  unfold release
  rw [hslot]
  dsimp only
  by_cases h0 : e.numPins = 0
  · rw [if_pos h0]
  · rw [if_neg h0, if_neg hexc, if_neg (by omega)]

theorem modifySlot_slot_self {s : Shard} {i : Nat} {e : Entry}
    {f : Entry → Entry} (h : s.entries[i]? = some (some e)) :
    (modifySlot s i f).entries[i]? = some (some (f e)) := by
  rw [modifySlot_eq h]
  show (s.entries.set i _)[i]? = _
  exact List.getElem?_set_self (slot_lt h)

theorem modifySlot_emptySlots (s : Shard) (i : Nat) (f : Entry → Entry) :
    (modifySlot s i f).emptySlots = s.emptySlots := by
  unfold modifySlot
  split <;> rfl

/-- On a successful initialization the created entry's key is bound at the
new slot index. -/
theorem createEntry_lookup {s : Shard} {k : RawKey} {size : Nat}
    {allocOk : Bool} (hok : size < kTinyDataSize ∨ allocOk = true) :
    mapLookup (createEntry s k size allocOk).1.entryMap k
        = some (newSlotIndex s) := by
  unfold createEntry
  dsimp only
  by_cases hsz : size < kTinyDataSize
  · rw [if_pos hsz]
    dsimp only
    rw [modifySlot_entryMap, modifySlot_entryMap]
    exact mapLookup_mapInsert_self _ _ _
  · rw [if_neg hsz]
    have halloc : allocOk = true := by
      rcases hok with h | h
      · exact absurd h hsz
      · exact h
    rw [if_pos halloc]
    dsimp only
    rw [modifySlot_entryMap, modifySlot_entryMap, modifySlot_entryMap]
    exact mapLookup_mapInsert_self _ _ _

/-- Live slots other than the insertion slot survive `createEntry`. -/
theorem createEntry_get_live {s : Shard} {k : RawKey} {size : Nat}
    {allocOk : Bool} {j : Nat} {f : Entry}
    (hes : ∀ j2 ∈ s.emptySlots, s.entries[j2]? = some none)
    (hslot : s.entries[j]? = some (some f)) :
    (createEntry s k size allocOk).1.entries[j]? = some (some f) := by
  have hne : j ≠ newSlotIndex s := by
    intro hh
    exact newSlot_old hes f (hh ▸ hslot)
  unfold createEntry
  dsimp only
  by_cases hsz : size < kTinyDataSize
  · rw [if_pos hsz]
    dsimp only
    rw [modifySlot_get_ne hne, modifySlot_get_ne hne]
    show (insertAtSlot s _)[j]? = _
    rw [insertAtSlot_ne hne]
    exact hslot
  · rw [if_neg hsz]
    by_cases halloc : allocOk = true
    · rw [if_pos halloc]
      dsimp only
      rw [modifySlot_get_ne hne, modifySlot_get_ne hne,
        modifySlot_get_ne hne]
      show (insertAtSlot s _)[j]? = _
      rw [insertAtSlot_ne hne]
      exact hslot
    · rw [if_neg halloc]
      dsimp only
      rw [release_get_ne hne, modifySlot_get_ne hne,
        modifySlot_get_ne hne]
      show (insertAtSlot s _)[j]? = _
      rw [insertAtSlot_ne hne]
      exact hslot

/-- The supersede path of `findOrCreate`: the old entry's key is cleared
in place, and on a successful initialization the same map key is rebound
to the freshly created entry in another slot. -/
theorem findOrCreate_supersede {s : Shard} {k : RawKey} {size : Nat}
    {wait allocOk : Bool} {now : Nat} {j : Nat} {old : Entry}
    (hInv : ShardInv s) (hl : mapLookup s.entryMap k = some j)
    (hslot : s.entries[j]? = some (some old))
    (hexc : old.isExclusive = false) (hsz : old.size < size) :
    (findOrCreate s k size wait allocOk now).1.entries[j]?
        = some (some { old with key := none }) ∧
    ((size < kTinyDataSize ∨ allocOk = true) →
      ∃ i2 : Nat, i2 ≠ j ∧
        mapLookup (findOrCreate s k size wait allocOk now).1.entryMap k
            = some i2 ∧
        ∃ eN : Entry,
          (findOrCreate s k size wait allocOk now).1.entries[i2]?
              = some (some eN) ∧ eN.key = some k) := by
  have hkey : old.key = some k := by
    obtain ⟨f0, hf0, hk0⟩ := hInv.1 (k, j) (mapLookup_mem hl)
    rw [hslot] at hf0
    injection hf0 with h2
    injection h2 with h3
    rw [← h3] at hk0
    exact hk0
  have hslot1 : ({ s with eventCounter := s.eventCounter + 1 }
      : Shard).entries[j]? = some (some old) := hslot
  have hInv1 : ShardInv ({ s with eventCounter := s.eventCounter + 1 }
      : Shard) := hInv
  have hclear : (modifySlot
      ({ s with eventCounter := s.eventCounter + 1 } : Shard) j
      (fun e => { e with key := none })).entries[j]?
      = some (some { old with key := none }) :=
    modifySlot_slot_self hslot1
  have hes2 : ∀ j2 ∈ (modifySlot
      ({ s with eventCounter := s.eventCounter + 1 } : Shard) j
      (fun e => { e with key := none })).emptySlots,
      (modifySlot ({ s with eventCounter := s.eventCounter + 1 } : Shard) j
        (fun e => { e with key := none })).entries[j2]? = some none := by
    rw [modifySlot_emptySlots]
    intro j2 hj2
    have h := hInv.2.2.2.1 j2 hj2
    have hne : j2 ≠ j := by
      intro hh
      subst hh
      rw [hslot] at h
      injection h with h2
      cases h2
    rw [modifySlot_get_ne hne]
    exact h
  have hnotex : ¬ old.isExclusive = true := by
    rw [hexc]
    simp
  have hnotsz : ¬ size ≤ old.size := by omega
  unfold findOrCreate
  dsimp only
  rw [hl]
  dsimp only
  rw [hslot]
  dsimp only
  rw [if_neg hnotex, if_neg hnotsz]
  constructor
  · exact createEntry_get_live hes2 hclear
  · intro hok
    refine ⟨newSlotIndex (modifySlot
      ({ s with eventCounter := s.eventCounter + 1 } : Shard) j
      (fun e => { e with key := none })), ?_, ?_, ?_⟩
    · intro hh
      have hcontra := newSlot_old hes2 { old with key := none }
      rw [hh] at hcontra
      exact hcontra hclear
    · exact createEntry_lookup hok
    · have hInvR := @ShardInv_createEntry (modifySlot
        ({ s with eventCounter := s.eventCounter + 1 } : Shard) j
        (fun e => { e with key := none })) k size allocOk
        (Pre_of_supersede_modify hInv1 hslot1 hkey)
      obtain ⟨eN, heN, hkN⟩ := hInvR.1 _ (mapLookup_mem
        (@createEntry_lookup (modifySlot
          ({ s with eventCounter := s.eventCounter + 1 }
            : Shard) j (fun e => { e with key := none })) k size allocOk
          hok))
      exact ⟨eN, heN, hkN⟩

theorem evictStep_pinned_slot {env : EvictEnv} {skipSsd : Bool}
    {idx : Nat} {st : EvictState} {i : Nat} {e : Entry}
    (hslot : st.shard.entries[i]? = some (some e))
    (hpins : e.numPins ≠ 0) :
    (evictStep env skipSsd idx st).1.shard.entries[i]? = some (some e) := by
  rcases evictStep_cases env skipSsd idx st with hA | hB | hC
  · rw [hA.1]
    exact hslot
  · rw [hB.1]
    exact hslot
  · obtain ⟨c, hc, hcpins, _, sMid, hent, _, _, hm1, _, _, _⟩ := hC
    have hne : i ≠ idx := by
      intro hh
      subst hh
      rw [hslot] at hc
      injection hc with h2
      injection h2 with h3
      rw [← h3] at hcpins
      exact hpins hcpins
    have hcMid : sMid.entries[idx]? = some (some c) := by
      rw [hm1]
      exact hc
    rw [hent, evictSlot_get_ne hne hcMid, hm1]
    exact hslot

theorem evictLoop_pinned_slot (env : EvictEnv) (skipSsd : Bool)
    (size : Nat) :
    ∀ (fuel entryIndex : Nat) (st : EvictState) (i : Nat) (e : Entry),
      st.shard.entries[i]? = some (some e) → e.numPins ≠ 0 →
      (evictLoop env skipSsd size fuel entryIndex st).shard.entries[i]?
          = some (some e) := by
  intro fuel
  induction fuel with
  | zero => exact fun _ st i e h1 _ => h1
  | succ n ih =>
    intro entryIndex st i e h1 h2
    unfold evictLoop
    dsimp only
    have h4 := @evictStep_pinned_slot env skipSsd
      (if entryIndex + 1 = size then 0 else entryIndex + 1) st i e h1 h2
    by_cases hstop : (evictStep env skipSsd
        (if entryIndex + 1 = size then 0 else entryIndex + 1) st).2 = true
    · rw [if_pos hstop]
      exact h4
    · rw [if_neg hstop]
      exact ih _ _ i e h4 h2

/-! ## A decidable invariant checker (used by concrete witnesses) -/

def shardInvCheck (s : Shard) : Bool :=
  s.entryMap.all (fun p =>
    match s.entries[p.2]? with
    | some (some e) => decide (e.key = some p.1)
    | _ => false) &&
  (List.range s.entries.length).all (fun i =>
    match s.entries[i]? with
    | some (some e) =>
      match e.key with
      | some k => decide ((k, i) ∈ s.entryMap)
      | none => true
    | _ => true) &&
  decide ((s.entryMap.map Prod.fst).Nodup) &&
  s.emptySlots.all (fun j =>
    match s.entries[j]? with
    | some none => true
    | _ => false) &&
  decide s.emptySlots.Nodup

theorem shardInvCheck_sound {s : Shard} (h : shardInvCheck s = true) :
    ShardInv s := by
  unfold shardInvCheck at h
  simp only [Bool.and_eq_true, List.all_eq_true] at h
  obtain ⟨⟨⟨⟨h1, h2⟩, h3⟩, h4⟩, h5⟩ := h
  refine ⟨?_, ?_, of_decide_eq_true h3, ?_, of_decide_eq_true h5⟩
  · intro p hp
    have hh := h1 p hp
    cases hslot : s.entries[p.2]? with
    | none =>
      rw [hslot] at hh
      cases hh
    | some slot =>
      cases slot with
      | none =>
        rw [hslot] at hh
        cases hh
      | some e =>
        rw [hslot] at hh
        exact ⟨e, rfl, of_decide_eq_true hh⟩
  · intro i e he k hk
    have hi : i < s.entries.length := slot_lt he
    have hh := h2 i (List.mem_range.mpr hi)
    rw [he] at hh
    dsimp only at hh
    rw [hk] at hh
    exact of_decide_eq_true hh
  · intro j hj
    have hh := h4 j hj
    cases hslot : s.entries[j]? with
    | none =>
      rw [hslot] at hh
      cases hh
    | some slot =>
      cases slot with
      | none => rfl
      | some e =>
        rw [hslot] at hh
        cases hh

/-! ### Concrete states used by counterexamples and witnesses -/

/-- An exclusive entry (being filled) with a waiter promise attached. -/
def exclusiveDemoEntry : Entry :=
  { Entry.blank with
      key := some ⟨7, 0⟩
      numPins := kExclusive
      promise := true }

/-- A shared entry with two pins. -/
def sharedDemoEntry : Entry :=
  { Entry.blank with
      key := some ⟨7, 64⟩
      numPins := 2 }

/-- An unpinned entry (releasing it is a pin-count underflow). -/
def unpinnedDemoEntry : Entry :=
  { Entry.blank with
      key := some ⟨7, 128⟩
      numPins := 0 }

/-- A three-slot shard holding the three demo entries. -/
def releaseDemoShard : Shard :=
  { entries := [some exclusiveDemoEntry, some sharedDemoEntry,
      some unpinnedDemoEntry]
    entryMap := [(⟨7, 0⟩, 0), (⟨7, 64⟩, 1), (⟨7, 128⟩, 2)]
    emptySlots := []
    freeEntries := []
    clockHand := 0
    eventCounter := 0
    evictionThreshold := 0
    stats := ShardStats.zero }

/-- A pinned entry with a saveable flag, for the eviction claims. -/
def pinnedDemoEntry : Entry :=
  { Entry.blank with
      key := some ⟨2, 0⟩
      numPins := 3
      dataPages := 4
      dataBytes := 4 * kPageSize }

/-- A pinned entry whose key was cleared by the supersede path while
readers still hold pins. -/
def keylessPinnedDemoEntry : Entry :=
  { Entry.blank with
      key := none
      numPins := 2
      dataPages := 1
      dataBytes := kPageSize }

/-- A shard holding a keyed pinned entry and a keyless pinned entry. -/
def pinnedDemoShard : Shard :=
  { entries := [some pinnedDemoEntry, some keylessPinnedDemoEntry]
    entryMap := [(⟨2, 0⟩, 0)]
    emptySlots := []
    freeEntries := []
    clockHand := 0
    eventCounter := 0
    evictionThreshold := 0
    stats := ShardStats.zero }

/-- A one-slot shard holding an unpinned saveable entry. -/
def saveableDemoShard : Shard :=
  { entries := [some saveableEntry]
    entryMap := [(⟨1, 0⟩, 0)]
    emptySlots := []
    freeEntries := []
    clockHand := 0
    eventCounter := 0
    evictionThreshold := 0
    stats := ShardStats.zero }

/-- `AsyncDataCache::clear()` on one shard: the source calls
`shard->evict(std::numeric_limits<int32_t>::max(), true, 0, acquired)` —
a desperate pass (evictAllUnpinned) acquiring no pages, with the maximal
int32 byte target.  `evict` reads the cache's SSD tier itself
(`ssdCache = cache_->ssdCache()`), so whether one exists and is writing
stays a parameter here. -/
def clearShard (s : Shard) (hasSsdCache writeInProgress : Bool)
    (score : Entry → Int) : EvictState :=
  evict s
    { hasSsdCache := hasSsdCache
      writeInProgress := writeInProgress
      evictAllUnpinned := true
      bytesToFree := 2147483647
      score := score } 0

/-- A pinned entry's slot and map binding survive a whole eviction pass. -/
theorem evict_pinned {s : Shard} {env : EvictEnv} {pta : Nat} {i : Nat}
    {e : Entry} {k : RawKey} (hInv : ShardInv s)
    (hslot : s.entries[i]? = some (some e)) (hpin : e.numPins ≠ 0)
    (hmem : (k, i) ∈ s.entryMap) :
    (evict s env pta).shard.entries[i]? = some (some e) ∧
    (k, i) ∈ (evict s env pta).shard.entryMap := by
  unfold evict
  dsimp only
  by_cases hsz : s.entries.length = 0
  · rw [if_pos hsz]
    exact ⟨hslot, hmem⟩
  · rw [if_neg hsz]
    exact evictLoop_pinned env _ _ _ _ _ i e k hInv hslot hpin hmem

/-- A pinned entry's slot survives a whole eviction pass even when its key
is cleared (no map binding needed: the pin check alone protects it). -/
theorem evict_pinned_slot {s : Shard} {env : EvictEnv} {pta : Nat}
    {i : Nat} {e : Entry} (hslot : s.entries[i]? = some (some e))
    (hpin : e.numPins ≠ 0) :
    (evict s env pta).shard.entries[i]? = some (some e) := by
  unfold evict
  dsimp only
  by_cases hsz : s.entries.length = 0
  · rw [if_pos hsz]
    exact hslot
  · rw [if_neg hsz]
    exact evictLoop_pinned_slot env _ _ _ _ _ i e hslot hpin

/-- A non-desperate eviction environment with an SSD write in progress. -/
def demoSkipEnv : EvictEnv :=
  { hasSsdCache := true
    writeInProgress := true
    evictAllUnpinned := false
    bytesToFree := 1000000
    score := fun _ => 5 }

/-- The initial accumulator of a pass over `saveableDemoShard`. -/
def demoSkipState : EvictState :=
  { shard := saveableDemoShard
    pagesToAcquire := 0
    acquiredPages := 0
    toFree := []
    tinyFreed := 0
    largeFreed := 0
    saveableSkipped := 0
    numChecked := 0 }

/-! ## Theorems -/

/-- C8: `can_try_allocate(numPages, acquired)` returns true if and only if
`numPages ≤ acquired.numPages()`, or the shortfall
`numPages - acquired.numPages()` is at most the allocator's capacity in
pages minus its currently allocated pages. -/
theorem claim_C8_canTryAllocate
    (numPages acquiredPages capacityPages numAllocated : Int) :
    canTryAllocate numPages acquiredPages capacityPages numAllocated = true ↔
      numPages ≤ acquiredPages ∨
        numPages - acquiredPages ≤ capacityPages - numAllocated := by
  unfold canTryAllocate
  by_cases h : numPages ≤ acquiredPages <;> simp [h]

/-- C9: `initialize` with `size < TINY_THRESHOLD` stores the data in the
inline tiny buffer and requests no page allocation; `size ≥ TINY_THRESHOLD`
clears the tiny buffer and requests `ceil(size / page_size)` pages (stated
as: the requested page count covers `size` and is the least such count); in
particular `TINY_THRESHOLD - 1` uses inline storage and `TINY_THRESHOLD`
uses pages. -/
theorem claim_C9_initialize_tiny_threshold (size : Nat) :
    (size < kTinyDataSize →
      (initializeBuffer size).usesTiny = true ∧
      (initializeBuffer size).tinySize = size ∧
      (initializeBuffer size).requestedPages = 0) ∧
    (kTinyDataSize ≤ size →
      (initializeBuffer size).usesTiny = false ∧
      (initializeBuffer size).tinySize = 0 ∧
      size ≤ (initializeBuffer size).requestedPages * kPageSize ∧
      (initializeBuffer size).requestedPages * kPageSize < size + kPageSize) ∧
    (initializeBuffer (kTinyDataSize - 1)).usesTiny = true ∧
    (initializeBuffer kTinyDataSize).usesTiny = false := by
  refine ⟨fun h => ?_, fun h => ?_, by decide, by decide⟩
  · simp [initializeBuffer, h]
  · have hno : ¬ size < kTinyDataSize := not_lt.mpr h
    have hsize : 0 < size := lt_of_lt_of_le (by decide) h
    have hdm := Nat.div_add_mod (size + kPageSize - 1) kPageSize
    have hm : (size + kPageSize - 1) % kPageSize < kPageSize :=
      Nat.mod_lt _ (by decide)
    simp only [initializeBuffer, hno, if_false, numPagesOf]
    refine ⟨trivial, trivial, ?_, ?_⟩ <;>
      · simp only [kPageSize] at hdm hm ⊢
        omega

/-- C1: the claim says `append_ssd_saveable` appends at most 70% of the
shard's slots as pins, matching the comment in the source ("Do not add more
than 70% of entries to a write batch"); but the code computes the limit as
`entries_.size() * 100 / 70` (≈143% of the slot count) instead of
`entries_.size() * 70 / 100`, so the limit can never bind: on a shard of 10
slots each holding an unpinned, saveable, not-on-SSD entry, all 10 entries
(100% of the slots) are pinned, where at most 7 are allowed. -/
theorem claim_C1_appendSsdSaveable_limit_bug :
    (appendSsdSaveable (List.replicate 10 (some saveableEntry)) []).2.length
        = 10 ∧
    ¬ (appendSsdSaveable (List.replicate 10 (some saveableEntry)) []).2.length
        * 100 ≤ 70 * 10 := by
  constructor <;> decide

/-- C2 counterexample: the claim says a waiter promise on an exclusive
entry is fulfilled with the value `false` by `release()`; the source runs
`promise->setValue(true)`, so on a shard holding an exclusive entry with a
waiter promise the realized value is `true`, not `false`. -/
theorem claim_C2_counterexample_release_promise_value :
    (release releaseDemoShard 0).2
        = ReleaseResult.removedExclusive (some true) ∧
    ¬ (release releaseDemoShard 0).2
        = ReleaseResult.removedExclusive (some false) := by
  constructor <;> decide

/-- C2 (amended): for an entry whose pin count equals the EXCLUSIVE
sentinel, `release()` removes the entry from the shard under the shard
lock, and a present waiter promise is fulfilled with the value `true`
outside the lock; for pin count ≥ 1 it decrements by one; a release at a
pin count below 1 (underflow, sentinel aside) is a fatal check failure. -/
theorem claim_C2_release_amended (s : Shard) (i : Nat) (e : Entry)
    (hslot : s.entries[i]? = some (some e)) :
    (e.numPins = kExclusive → ∀ k : RawKey, e.key = some k →
      (release s i).2 = ReleaseResult.removedExclusive
          (if e.promise then some true else none) ∧
      mapLookup (release s i).1.entryMap k = none ∧
      (release s i).1.entries[i]? = some (some { e with
        key := none
        hasSsdFile := false
        isPrefetch := false
        dataPages := 0
        dataBytes := 0
        promise := false
        numPins := 0 })) ∧
    (1 ≤ e.numPins →
      (release s i).2 = ReleaseResult.decremented ∧
      (release s i).1.entries[i]?
          = some (some { e with numPins := e.numPins - 1 })) ∧
    (e.numPins < 1 → ¬ e.numPins = kExclusive →
      (release s i).2 = ReleaseResult.fatal) :=
  ⟨fun hexc _ hk => release_exclusive_eq hslot hexc hk,
   fun h1 => release_decrement_eq hslot h1,
   fun hlow hexc => release_fatal_eq hslot hlow hexc⟩

/-- C2 witness: the three demo entries exercise the three branches. -/
theorem claim_C2_release_amended_witness :
    (release releaseDemoShard 0).2
        = ReleaseResult.removedExclusive (some true) ∧
    mapLookup (release releaseDemoShard 0).1.entryMap ⟨7, 0⟩ = none ∧
    (release releaseDemoShard 1).2 = ReleaseResult.decremented ∧
    (release releaseDemoShard 2).2 = ReleaseResult.fatal := by
  have h0 := (claim_C2_release_amended releaseDemoShard 0
    exclusiveDemoEntry (by decide)).1 (by decide) ⟨7, 0⟩ (by decide)
  have h1 := (claim_C2_release_amended releaseDemoShard 1
    sharedDemoEntry (by decide)).2.1 (by decide)
  have h2 := (claim_C2_release_amended releaseDemoShard 2
    unpinnedDemoEntry (by decide)).2.2 (by decide) (by decide)
  refine ⟨?_, h0.2.1, h1.1, h2⟩
  have hp : exclusiveDemoEntry.promise = true := rfl
  rw [h0.1, hp]
  rfl



/-- C4: no eviction pass — with any arguments, including the desperate
all-unpinned pass `clear()` runs — removes an entry with a non-zero pin
count, whether or not its key is still bound in the map: its slot still
holds the very same entry (so its allocation was neither moved into the
acquired allocation nor batched for freeing, the entry was not drained
into the free-entry recycler, and in particular a superseded entry whose
key was cleared while readers still hold pins keeps its buffer), and any
map binding it has is intact. -/
theorem claim_C4_evict_never_removes_pinned (s : Shard) (env : EvictEnv)
    (pta : Nat) (hc wp : Bool) (score : Entry → Int) (i : Nat) (e : Entry)
    (hInv : ShardInv s) (hslot : s.entries[i]? = some (some e))
    (hpin : e.numPins ≠ 0) :
    ((evict s env pta).shard.entries[i]? = some (some e) ∧
      ∀ k : RawKey, (k, i) ∈ s.entryMap →
        (k, i) ∈ (evict s env pta).shard.entryMap) ∧
    ((clearShard s hc wp score).shard.entries[i]? = some (some e) ∧
      ∀ k : RawKey, (k, i) ∈ s.entryMap →
        (k, i) ∈ (clearShard s hc wp score).shard.entryMap) := by
  refine ⟨⟨evict_pinned_slot hslot hpin,
    fun k hmem => (evict_pinned hInv hslot hpin hmem).2⟩, ?_⟩
  unfold clearShard
  exact ⟨evict_pinned_slot hslot hpin,
    fun k hmem => (evict_pinned hInv hslot hpin hmem).2⟩

/-- C4 witness: a desperate pass over a shard holding a keyed pinned entry
and a keyless pinned entry (superseded, with live readers) leaves both
slots and the binding untouched. -/
theorem claim_C4_evict_never_removes_pinned_witness :
    (evict pinnedDemoShard
        { hasSsdCache := false
          writeInProgress := false
          evictAllUnpinned := true
          bytesToFree := 0
          score := fun _ => 0 } 0).shard.entries[0]?
        = some (some pinnedDemoEntry) ∧
    (⟨2, 0⟩, 0) ∈ (clearShard pinnedDemoShard true true
        (fun _ => 0)).shard.entryMap ∧
    (clearShard pinnedDemoShard true true (fun _ => 0)).shard.entries[1]?
        = some (some keylessPinnedDemoEntry) := by
  have h0 := claim_C4_evict_never_removes_pinned pinnedDemoShard
    { hasSsdCache := false
      writeInProgress := false
      evictAllUnpinned := true
      bytesToFree := 0
      score := fun _ => 0 }
    0 true true (fun _ => 0) 0 pinnedDemoEntry
    (shardInvCheck_sound (by decide)) (by decide) (by decide)
  have h1 := claim_C4_evict_never_removes_pinned pinnedDemoShard
    { hasSsdCache := false
      writeInProgress := false
      evictAllUnpinned := true
      bytesToFree := 0
      score := fun _ => 0 }
    0 true true (fun _ => 0) 1 keylessPinnedDemoEntry
    (shardInvCheck_sound (by decide)) (by decide) (by decide)
  exact ⟨h0.1.1, h0.2.2 ⟨2, 0⟩ (by decide), h1.2.1⟩

/-- C5: in a pass that is not desperate while an SSD write is in progress
(the `skipSsdSaveable` flag), an otherwise-evictable unpinned entry with
`ssdSaveable_` set is skipped — its slot is untouched, `saveableSkipped`
is counted up and the loop does not stop on it — and every saveable
entry's slot survives the whole pass; after the pass, when skips occurred,
an SSD save is started if the SSD tier can start a write, and otherwise
the skipped-save counter is incremented. -/
theorem claim_C5_ssd_bypass (env : EvictEnv)
    (hssd : env.hasSsdCache = true) (hwip : env.writeInProgress = true)
    (hall : env.evictAllUnpinned = false) :
    (∀ (idx : Nat) (st : EvictState) (c : Entry),
      st.shard.entries[idx]? = some (some c) → c.numPins = 0 →
      c.ssdSaveable = true →
      (c.key = none ∨
        (evictStep env true idx st).1.shard.evictionThreshold ≤
          env.score c) →
      (evictStep env true idx st).1.shard.entries = st.shard.entries ∧
      (evictStep env true idx st).1.saveableSkipped
          = st.saveableSkipped + 1 ∧
      (evictStep env true idx st).2 = false) ∧
    (∀ (s : Shard) (pta i : Nat) (e : Entry),
      s.entries[i]? = some (some e) → e.ssdSaveable = true →
      (evict s env pta).shard.entries[i]? = some (some e)) ∧
    (∀ (sk : Nat) (sw : Bool), sk ≠ 0 →
      (sw = true → evictPost sk env.hasSsdCache sw = .startedSave) ∧
      (sw = false → evictPost sk env.hasSsdCache sw = .skippedCounted)) := by
  refine ⟨fun idx st c hc hp hs hev => evictStep_skip hc hp hs rfl hall hev,
    ?_, ?_⟩
  · intro s pta i e h1 h2
    unfold evict
    dsimp only
    by_cases hsz : s.entries.length = 0
    · rw [if_pos hsz]
      exact h1
    · rw [if_neg hsz]
      exact evictLoop_saveable env _ _ (decide_eq_true ⟨hssd, hwip⟩) hall
        _ _ _ i e h1 h2
  · intro sk sw hsk
    constructor
    · intro hsw
      unfold evictPost
      rw [if_pos ⟨hsk, hssd, hsw⟩]
    · intro hsw
      unfold evictPost
      rw [hsw]
      rw [if_neg (fun h => Bool.false_ne_true h.2.2)]
      rw [if_pos hsk]

/-- C5 witness: on a one-slot shard holding an unpinned saveable entry,
the step counts a skip, the pass leaves the slot in place, and the two
post-pass outcomes follow the `startWrite` verdict. -/
theorem claim_C5_ssd_bypass_witness :
    (evictStep demoSkipEnv true 0 demoSkipState).1.saveableSkipped = 1 ∧
    (evict saveableDemoShard demoSkipEnv 0).shard.entries[0]?
        = some (some saveableEntry) ∧
    evictPost 1 true true = SsdSavePost.startedSave ∧
    evictPost 1 true false = SsdSavePost.skippedCounted := by
  have h := claim_C5_ssd_bypass demoSkipEnv rfl rfl rfl
  refine ⟨?_,
    h.2.1 saveableDemoShard 0 0 saveableEntry (by decide) (by decide),
    (h.2.2 1 true (by decide)).1 rfl,
    (h.2.2 1 false (by decide)).2 rfl⟩
  have ha := h.1 0 demoSkipState saveableEntry (by decide) (by decide)
    (by decide) (by decide)
  rw [ha.2.1]
  rfl

/-- C6: after each of `findOrCreate`, `removeEntry`, `evict`, `exists` and
`appendSsdSaveable` releases the shard mutex — and trivially after
`updateStats`, which only folds the slots into a `CacheStats` value and
leaves the shard untouched, so the state after it is `s` itself — an entry
is present in the shard's map iff its key is non-cleared (`mapIffKey`).
`findOrCreate`'s supersede path clears the old entry's key in place while
rebinding the same map key to the new entry, and `removeEntryLocked`
clears the key exactly when it erases the map binding: on a keyed entry it
erases the binding (the key no longer resolves) and clears the key fields,
on a keyless entry it changes nothing. -/
theorem claim_C6_map_iff_key (s : Shard) (k : RawKey) (size : Nat)
    (wait allocOk : Bool) (now : Nat) (i : Nat) (env : EvictEnv)
    (pta : Nat) (pins : List Entry) (hInv : ShardInv s) :
    mapIffKey (findOrCreate s k size wait allocOk now).1 ∧
    mapIffKey (removeEntry s i).1 ∧
    mapIffKey (evict s env pta).shard ∧
    mapIffKey (existsOp s k now).1 ∧
    mapIffKey (appendSsdSaveableShard s pins).1 ∧
    mapIffKey s ∧
    (∀ e : Entry, s.entries[i]? = some (some e) →
      (∀ kc, e.key = some kc →
        (removeEntryLocked s i).entryMap = mapErase s.entryMap kc ∧
        mapLookup (removeEntryLocked s i).entryMap kc = none ∧
        (removeEntryLocked s i).entries[i]? = some (some { e with
          key := none
          hasSsdFile := false
          isPrefetch := false
          dataPages := 0
          dataBytes := 0 })) ∧
      (e.key = none → removeEntryLocked s i = s)) ∧
    (∀ (j : Nat) (old : Entry),
      mapLookup s.entryMap k = some j →
      s.entries[j]? = some (some old) →
      old.isExclusive = false → old.size < size →
      (findOrCreate s k size wait allocOk now).1.entries[j]?
          = some (some { old with key := none }) ∧
      ((size < kTinyDataSize ∨ allocOk = true) →
        ∃ i2 : Nat, i2 ≠ j ∧
          mapLookup (findOrCreate s k size wait allocOk now).1.entryMap k
              = some i2 ∧
          ∃ eN : Entry,
            (findOrCreate s k size wait allocOk now).1.entries[i2]?
                = some (some eN) ∧ eN.key = some k)) := by
  refine ⟨(ShardInv_findOrCreate hInv).toMapIffKey,
    (ShardInv_removeEntry hInv).toMapIffKey,
    (ShardInv_evict hInv).toMapIffKey,
    (ShardInv_existsOp hInv).toMapIffKey,
    (ShardInv_appendSsdSaveableShard hInv).toMapIffKey,
    hInv.toMapIffKey, ?_,
    fun j old hl hslot hexc hsz =>
      findOrCreate_supersede hInv hl hslot hexc hsz⟩
  intro e hslot
  refine ⟨fun kc hk => ⟨removeEntryLocked_map_eq hslot hk, ?_,
      removeEntryLocked_slot_eq hslot hk⟩,
    fun hk => removeEntryLocked_keyless hslot hk⟩
  rw [removeEntryLocked_map_eq hslot hk]
  exact mapLookup_mapErase_self _ _

/-- C6 witness: on the three-slot demo shard, removing the keyed entry at
slot 1 erases exactly its binding, and the map-iff-key property holds
after an `exists` touch. -/
theorem claim_C6_map_iff_key_witness :
    (removeEntryLocked releaseDemoShard 1).entryMap
        = mapErase releaseDemoShard.entryMap ⟨7, 64⟩ ∧
    mapLookup (removeEntryLocked releaseDemoShard 1).entryMap ⟨7, 64⟩
        = none ∧
    mapIffKey (existsOp releaseDemoShard ⟨7, 64⟩ 5).1 := by
  have h := claim_C6_map_iff_key releaseDemoShard ⟨7, 64⟩ 200 false true 5
    1 demoSkipEnv 0 [] (shardInvCheck_sound (by decide))
  have hr := (h.2.2.2.2.2.2.1 sharedDemoEntry (by decide)).1 ⟨7, 64⟩
    (by decide)
  exact ⟨hr.1, hr.2.1, h.2.2.2.1⟩

/-- C10: `exists(key)` returns true exactly when the key is bound in the
shard's map — the result reads only the map, never the entry's pin state,
so an EXCLUSIVE (still-filling) entry is reported just like a shared one —
and on a hit it touches the bound entry's access stats (`lastUse`,
`numUses`) whatever that entry's pin count is.  The embedding of
`CacheShard::exists` has no promise, future or wait of any kind: it is a
total function of the shard state. -/
theorem claim_C10_exists_touches_exclusive (s : Shard) (k : RawKey)
    (now i : Nat) :
    (existsOp s k now).2 = (mapLookup s.entryMap k).isSome ∧
    (mapLookup s.entryMap k = some i →
      (existsOp s k now).2 = true ∧
      ∀ e : Entry, s.entries[i]? = some (some e) →
        (existsOp s k now).1.entries[i]? = some (some { e with
          lastUse := now
          numUses := e.numUses + 1 })) := by
  constructor
  · unfold existsOp
    cases hl : mapLookup s.entryMap k with
    | none => rfl
    | some i2 => rfl
  · intro hl
    unfold existsOp
    rw [hl]
    exact ⟨rfl, fun e hslot => modifySlot_slot_self hslot⟩

/-- C10 witness: the demo shard's slot-0 entry is EXCLUSIVE with a waiter
promise, yet `exists` reports true and touches it. -/
theorem claim_C10_exists_touches_exclusive_witness :
    (existsOp releaseDemoShard ⟨7, 0⟩ 42).2 = true ∧
    (existsOp releaseDemoShard ⟨7, 0⟩ 42).1.entries[0]?
        = some (some { exclusiveDemoEntry with
          lastUse := 42
          numUses := exclusiveDemoEntry.numUses + 1 }) := by
  have h := (claim_C10_exists_touches_exclusive releaseDemoShard ⟨7, 0⟩
    42 0).2 (by decide)
  exact ⟨h.1, h.2 exclusiveDemoEntry (by decide)⟩

/-- Everything appended to the trace by `makeSpaceGo` is an attempt index
in `[nthAttempt, maxAttempts)` whose desperation flag is exactly
`numShards ≤ index`, and at most `maxAttempts - nthAttempt` attempts are
appended. -/
theorem makeSpaceGo_trace (numShards : Nat) (tryOk : Nat → Bool)
    (maxAttempts : Nat) :
    ∀ (fuel nthAttempt : Nat) (trace : List (Nat × Bool)),
      maxAttempts - nthAttempt ≤ fuel →
      (makeSpaceGo numShards tryOk maxAttempts nthAttempt
          trace).evictTrace.length
        ≤ trace.length + (maxAttempts - nthAttempt) ∧
      (∀ p ∈ (makeSpaceGo numShards tryOk maxAttempts nthAttempt
          trace).evictTrace,
        p ∈ trace ∨ (nthAttempt ≤ p.1 ∧ p.1 < maxAttempts ∧
          p.2 = decide (numShards ≤ p.1))) := by
  intro fuel
  induction fuel with
  | zero =>
    intro nthAttempt trace hle
    have hge : ¬ nthAttempt < maxAttempts := by omega
    unfold makeSpaceGo
    rw [if_neg hge]
    exact ⟨Nat.le_add_right _ _, fun p hp => Or.inl hp⟩
  | succ n ih =>
    intro nthAttempt trace hle
    by_cases hlt : nthAttempt < maxAttempts
    · unfold makeSpaceGo
      rw [if_pos hlt]
      by_cases hok : tryOk nthAttempt = true
      · rw [if_pos hok]
        exact ⟨Nat.le_add_right _ _, fun p hp => Or.inl hp⟩
      · rw [if_neg hok]
        have hrec := ih (nthAttempt + 1)
          (trace ++ [(nthAttempt, decide (numShards ≤ nthAttempt))])
          (by omega)
        refine ⟨?_, ?_⟩
        · calc (makeSpaceGo numShards tryOk maxAttempts (nthAttempt + 1)
              (trace ++ [(nthAttempt, decide (numShards ≤ nthAttempt))])
              ).evictTrace.length
              ≤ (trace ++ [(nthAttempt, decide (numShards ≤ nthAttempt))]
                  ).length + (maxAttempts - (nthAttempt + 1)) := hrec.1
          _ ≤ trace.length + (maxAttempts - nthAttempt) := by
              rw [List.length_append]
              simp only [List.length_cons, List.length_nil]
              omega
        · intro p hp
          rcases hrec.2 p hp with hmem | hnew
          · rcases List.mem_append.mp hmem with h1 | h1
            · exact Or.inl h1
            · have hpe : p = (nthAttempt, decide (numShards ≤ nthAttempt))
                := List.mem_singleton.mp h1
              subst hpe
              exact Or.inr ⟨Nat.le_refl _, hlt, rfl⟩
          · exact Or.inr ⟨by omega, hnew.2.1, hnew.2.2⟩
    · unfold makeSpaceGo
      rw [if_neg hlt]
      exact ⟨Nat.le_add_right _ _, fun p hp => Or.inl hp⟩

/-- When every remaining attempt's allocation fails, `makeSpaceGo` runs to
exhaustion, records a failure and returns false. -/
theorem makeSpaceGo_fail (numShards : Nat) (tryOk : Nat → Bool)
    (maxAttempts : Nat) :
    ∀ (fuel nthAttempt : Nat) (trace : List (Nat × Bool)),
      maxAttempts - nthAttempt ≤ fuel →
      (∀ m, nthAttempt ≤ m → m < maxAttempts → tryOk m = false) →
      (makeSpaceGo numShards tryOk maxAttempts nthAttempt trace).success
          = false ∧
      (makeSpaceGo numShards tryOk maxAttempts nthAttempt
          trace).failureRecorded = true := by
  intro fuel
  induction fuel with
  | zero =>
    intro nthAttempt trace hle _
    have hge : ¬ nthAttempt < maxAttempts := by omega
    unfold makeSpaceGo
    rw [if_neg hge]
    exact ⟨rfl, rfl⟩
  | succ n ih =>
    intro nthAttempt trace hle hfail
    by_cases hlt : nthAttempt < maxAttempts
    · unfold makeSpaceGo
      rw [if_pos hlt]
      have hok : ¬ tryOk nthAttempt = true := by
        rw [hfail nthAttempt (Nat.le_refl _) hlt]
        exact Bool.false_ne_true
      rw [if_neg hok]
      exact ih (nthAttempt + 1) _ (by omega)
        (fun m hm1 hm2 => hfail m (by omega) hm2)
    · unfold makeSpaceGo
      rw [if_neg hlt]
      exact ⟨rfl, rfl⟩

/-- C3: `makeSpace` performs at most `kMaxAttempts = kNumShards * 4`
eviction attempts; every attempt's `evictAllUnpinned` flag is true exactly
when the attempt index has already cycled once through all shards
(`numShards ≤ index`); and when no attempt's allocation succeeds, a
failure is recorded and false is returned. -/
theorem claim_C3_makeSpace_loop (numShards : Nat) (tryOk : Nat → Bool) :
    (makeSpace numShards tryOk).evictTrace.length ≤ numShards * 4 ∧
    (∀ p ∈ (makeSpace numShards tryOk).evictTrace,
      p.1 < numShards * 4 ∧ (p.2 = true ↔ numShards ≤ p.1)) ∧
    ((∀ m, m < numShards * 4 → tryOk m = false) →
      (makeSpace numShards tryOk).success = false ∧
      (makeSpace numShards tryOk).failureRecorded = true) := by
  have htr := makeSpaceGo_trace numShards tryOk (numShards * 4)
    (numShards * 4) 0 [] (by omega)
  refine ⟨?_, ?_, ?_⟩
  · have h := htr.1
    unfold makeSpace
    simpa using h
  · intro p hp
    rcases htr.2 p hp with hmem | hnew
    · cases hmem
    · refine ⟨hnew.2.1, ?_⟩
      rw [hnew.2.2]
      exact decide_eq_true_iff
  · intro hfail
    exact makeSpaceGo_fail numShards tryOk (numShards * 4) (numShards * 4)
      0 [] (by omega) (fun m _ hm => hfail m hm)

/-- C3 witness: one shard, an allocator that always fails. -/
theorem claim_C3_makeSpace_loop_witness :
    (makeSpace 1 (fun _ => false)).evictTrace.length ≤ 1 * 4 ∧
    (makeSpace 1 (fun _ => false)).success = false ∧
    (makeSpace 1 (fun _ => false)).failureRecorded = true := by
  have h := claim_C3_makeSpace_loop 1 (fun _ => false)
  exact ⟨h.1, (h.2.2 (fun m _ => rfl)).1, (h.2.2 (fun m _ => rfl)).2⟩

/-- Pins handed back by `setExclusiveToShared` are shared: one pin, no
waiter promise left. -/
theorem setExclusiveToShared_pins (hasSsdCache : Bool)
    (shouldSave : Entry → Bool) (e : Entry) :
    (setExclusiveToShared hasSsdCache shouldSave e).numPins = 1 ∧
    (setExclusiveToShared hasSsdCache shouldSave e).promise = false := by
  unfold setExclusiveToShared
  dsimp only
  by_cases h : ¬ e.hasSsdFile = true ∧ hasSsdCache = true ∧
      shouldSave e = true
  · rw [if_pos h]
    exact ⟨rfl, rfl⟩
  · rw [if_neg h]
    exact ⟨rfl, rfl⟩

/-- C7: `loadOrFuture(wait)` returns true immediately in `kCancelled` and
`kLoaded`; in `kLoading` it returns false, publishing a future from the
shared promise only when the `wait` out-parameter is non-null; in
`kPlanned` with a successful `loadData` it ends in state `kLoaded`,
returns true, transitions every returned EXCLUSIVE pin to shared (one pin,
promise moved out) and fulfills a pending waiter promise; and when
`loadData` throws, the end state is `kCancelled` (fulfilling any pending
promise) and the exception is re-raised. -/
theorem claim_C7_loadOrFuture (l : Load) (wait : Bool)
    (loadData : Except Unit (List Entry)) (hasSsdCache : Bool)
    (shouldSave : Entry → Bool) :
    (l.state = .kCancelled ∨ l.state = .kLoaded →
      loadOrFuture l wait loadData hasSsdCache shouldSave =
        { load := l, outcome := .ret true false, sharedEntries := [],
          promiseFulfilled := false }) ∧
    (l.state = .kLoading →
      (wait = true →
        loadOrFuture l wait loadData hasSsdCache shouldSave =
          { load := { l with promise := true },
            outcome := .ret false true, sharedEntries := [],
            promiseFulfilled := false }) ∧
      (wait = false →
        loadOrFuture l wait loadData hasSsdCache shouldSave =
          { load := l, outcome := .ret false false, sharedEntries := [],
            promiseFulfilled := false })) ∧
    (l.state = .kPlanned →
      (∀ pins, loadData = .ok pins →
        pins.all (fun e => e.key.isSome && e.isExclusive) = true →
        (loadOrFuture l wait loadData hasSsdCache shouldSave).load.state
            = .kLoaded ∧
        (loadOrFuture l wait loadData hasSsdCache shouldSave).outcome
            = .ret true false ∧
        (loadOrFuture l wait loadData hasSsdCache
            shouldSave).promiseFulfilled = l.promise ∧
        (loadOrFuture l wait loadData hasSsdCache shouldSave).sharedEntries
            = pins.map (setExclusiveToShared hasSsdCache shouldSave) ∧
        ∀ e ∈ (loadOrFuture l wait loadData hasSsdCache
            shouldSave).sharedEntries,
          e.numPins = 1 ∧ e.promise = false) ∧
      (∀ err : Unit, loadData = .error err →
        (loadOrFuture l wait loadData hasSsdCache shouldSave).load.state
            = .kCancelled ∧
        (loadOrFuture l wait loadData hasSsdCache shouldSave).load.promise
            = false ∧
        (loadOrFuture l wait loadData hasSsdCache shouldSave).outcome
            = .raised ∧
        (loadOrFuture l wait loadData hasSsdCache
            shouldSave).promiseFulfilled = l.promise)) := by
  refine ⟨?_, ?_, ?_⟩
  · rintro (hst | hst) <;> (unfold loadOrFuture; rw [hst])
  · intro hst
    constructor <;> intro hw <;> (unfold loadOrFuture; rw [hst, hw]) <;>
      rfl
  · intro hst
    constructor
    · intro pins hld hall
      unfold loadOrFuture
      rw [hst, hld]
      dsimp only
      rw [if_pos hall]
      refine ⟨rfl, rfl, rfl, rfl, ?_⟩
      intro e he
      obtain ⟨e0, _, he0⟩ := List.mem_map.mp he
      rw [← he0]
      exact setExclusiveToShared_pins hasSsdCache shouldSave e0
    · intro err hld
      unfold loadOrFuture
      rw [hst, hld]
      exact ⟨rfl, rfl, rfl, rfl⟩

/-- C7 witness: a planned load over one exclusive pinned entry, and a
loading-state call with a waiter. -/
theorem claim_C7_loadOrFuture_witness :
    (loadOrFuture { state := .kPlanned, promise := true } false
        (.ok [exclusiveDemoEntry]) true (fun _ => true)).load.state
        = LoadState.kLoaded ∧
    (loadOrFuture { state := .kPlanned, promise := true } false
        (.ok [exclusiveDemoEntry]) true (fun _ => true)).promiseFulfilled
        = true ∧
    (loadOrFuture { state := .kLoading, promise := false } true
        (.ok []) true (fun _ => true)).outcome
        = LoadOutcome.ret false true := by
  have h1 := claim_C7_loadOrFuture { state := .kPlanned, promise := true }
    false (.ok [exclusiveDemoEntry]) true (fun _ => true)
  have hA := (h1.2.2 rfl).1 [exclusiveDemoEntry] rfl (by decide)
  have h2 := claim_C7_loadOrFuture { state := .kLoading, promise := false }
    true (.ok []) true (fun _ => true)
  have hB := (h2.2.1 rfl).1 rfl
  refine ⟨hA.1, ?_, by rw [hB]⟩
  rw [hA.2.2.1]

end Velox
